import Mathlib

/-!
# Verification of the nools-rust forward-chaining rule engine

A shallow embedding of the engine's core (facts, working memory, constraints,
patterns, Rete nodes, agenda, flow, session) translated from the Rust source,
together with theorems settling the specification claims.

Modelling conventions:
* `TypeId` and fact payloads (`Arc<dyn Fact>` pointers) are modelled as `Nat`
  tokens; two handles share a payload iff the tokens are equal, which models
  `Arc` pointer sharing.
* Rust `HashMap`s are modelled as association lists with replace-on-insert
  (`alInsert`); key order is irrelevant to every claim proved here.
* `BinaryHeap::pop` returns a greatest element under `Ord`; ties are
  unspecified.  The model (`popMax`) removes the leftmost maximal element,
  which is one admissible refinement of that contract.
* Rule actions in Rust are arbitrary closures `Fn(&mut Session, &Match)`.
  The embedding uses the command language `RuleAction`, covering the session
  operations an action can invoke — no-op, `halt()`, returning an error,
  `focus(group)`, `assert`, `retract(id)` and `modify(id)` — interpreted by
  `RuleAction.exec` through the same session methods a Rust action calls.
* The global `FactId` allocation counter and the per-memory recency counter
  are both carried inside `WorkingMemory` (`next_id`, `recency`).
* Fallible Rust methods returning `Result<T>` become `Except Error T`;
  methods on `&mut self` that can fail but must leave the receiver unchanged
  on failure are modelled as `State → State × Option Error`.
-/

/-- `error.rs`: the error enumeration (string payloads kept). -/
inductive Error where
  | compilation (msg : String)
  | execution (msg : String)
  | patternMatch (msg : String)
  | factNotFound (msg : String)
  | ruleNotFound (msg : String)
  | invalidConstraint (msg : String)
  | agendaGroupNotFound (msg : String)
  | custom (msg : String)
deriving DecidableEq, Repr

/-- `fact.rs::FactHandle`: id, type tag, shared payload token, recency. -/
structure FactHandle where
  id : Nat
  type_id : Nat
  value : Nat
  recency : Nat
deriving DecidableEq, Repr

/-- `constraint.rs::ConstraintContext`: alias → handle bindings. -/
structure ConstraintContext where
  bindings : List (String × FactHandle)
deriving DecidableEq, Repr

/-- `ConstraintContext::new()`. -/
def ConstraintContext.new : ConstraintContext := ⟨[]⟩

/-- `ConstraintContext::set`. -/
def ConstraintContext.set (c : ConstraintContext) (name : String) (h : FactHandle) :
    ConstraintContext :=
  ⟨(name, h) :: c.bindings.filter (fun p => p.1 ≠ name)⟩

/-- `constraint.rs`: the closed set of constraint kinds.  A
`FunctionConstraint` carries an arbitrary predicate closure (its `evaluate`
wraps the result in `Ok`) plus a description used only for diagnostics. -/
inductive Constraint where
  | func (f : FactHandle → ConstraintContext → Bool) (description : String)
  | cand (children : List Constraint)
  | cor (children : List Constraint)
  | cnot (child : Constraint)

mutual
/-- `Constraint::evaluate` for each impl in `constraint.rs`. -/
def Constraint.evaluate : Constraint → FactHandle → ConstraintContext → Except Error Bool
  | .func f _, h, ctx => .ok (f h ctx)
  | .cand cs, h, ctx => Constraint.evalAnd cs h ctx
  | .cor cs, h, ctx => Constraint.evalOr cs h ctx
  | .cnot c, h, ctx =>
    match c.evaluate h ctx with
    | .error e => .error e
    | .ok b => .ok (!b)

/-- `AndConstraint::evaluate`: first `Ok(false)` short-circuits, `?` on errors,
`Ok(true)` for the empty list. -/
def Constraint.evalAnd : List Constraint → FactHandle → ConstraintContext → Except Error Bool
  | [], _, _ => .ok true
  | c :: rest, h, ctx =>
    match c.evaluate h ctx with
    | .error e => .error e
    | .ok false => .ok false
    | .ok true => Constraint.evalAnd rest h ctx

/-- `OrConstraint::evaluate`: first `Ok(true)` short-circuits, `?` on errors,
`Ok(false)` for the empty list. -/
def Constraint.evalOr : List Constraint → FactHandle → ConstraintContext → Except Error Bool
  | [], _, _ => .ok false
  | c :: rest, h, ctx =>
    match c.evaluate h ctx with
    | .error e => .error e
    | .ok false => Constraint.evalOr rest h ctx
    | .ok true => .ok true
end

mutual
/-- No constraint in the repository's closed set can produce an error:
`FunctionConstraint` always returns `Ok`, and the combinators only propagate. -/
theorem Constraint.evaluate_isOk (c : Constraint) (h : FactHandle) (ctx : ConstraintContext) :
    ∃ b, c.evaluate h ctx = .ok b :=
  match c with
  | .func f _ => ⟨f h ctx, rfl⟩
  | .cand cs => by
    obtain ⟨b, hb⟩ := Constraint.evalAnd_isOk cs h ctx
    exact ⟨b, by simpa [Constraint.evaluate] using hb⟩
  | .cor cs => by
    obtain ⟨b, hb⟩ := Constraint.evalOr_isOk cs h ctx
    exact ⟨b, by simpa [Constraint.evaluate] using hb⟩
  | .cnot c' => by
    obtain ⟨b, hb⟩ := Constraint.evaluate_isOk c' h ctx
    exact ⟨!b, by simp [Constraint.evaluate, hb]⟩

theorem Constraint.evalAnd_isOk (cs : List Constraint) (h : FactHandle) (ctx : ConstraintContext) :
    ∃ b, Constraint.evalAnd cs h ctx = .ok b :=
  match cs with
  | [] => ⟨true, rfl⟩
  | c :: rest => by
    obtain ⟨b, hb⟩ := Constraint.evaluate_isOk c h ctx
    cases b with
    | false => exact ⟨false, by simp [Constraint.evalAnd, hb]⟩
    | true =>
      obtain ⟨b', hb'⟩ := Constraint.evalAnd_isOk rest h ctx
      exact ⟨b', by simp [Constraint.evalAnd, hb, hb']⟩

theorem Constraint.evalOr_isOk (cs : List Constraint) (h : FactHandle) (ctx : ConstraintContext) :
    ∃ b, Constraint.evalOr cs h ctx = .ok b :=
  match cs with
  | [] => ⟨false, rfl⟩
  | c :: rest => by
    obtain ⟨b, hb⟩ := Constraint.evaluate_isOk c h ctx
    cases b with
    | true => exact ⟨true, by simp [Constraint.evalOr, hb]⟩
    | false =>
      obtain ⟨b', hb'⟩ := Constraint.evalOr_isOk rest h ctx
      exact ⟨b', by simp [Constraint.evalOr, hb, hb']⟩
end

theorem Constraint.evalAnd_ok_true_iff (cs : List Constraint) (h : FactHandle)
    (ctx : ConstraintContext) :
    Constraint.evalAnd cs h ctx = .ok true ↔ ∀ c ∈ cs, c.evaluate h ctx = .ok true := by
  induction cs with
  | nil => simp [Constraint.evalAnd]
  | cons c rest ih =>
    obtain ⟨b, hb⟩ := Constraint.evaluate_isOk c h ctx
    cases b with
    | false =>
      simp only [Constraint.evalAnd, hb]
      constructor
      · intro hcontra; cases hcontra
      · intro hall
        have := hall c (List.mem_cons_self c rest)
        rw [hb] at this
        cases this
    | true =>
      simp only [Constraint.evalAnd, hb]
      rw [ih]
      constructor
      · intro hall c' hc'
        rcases List.mem_cons.mp hc' with rfl | hmem
        · exact hb
        · exact hall c' hmem
      · intro hall c' hc'
        exact hall c' (List.mem_cons_of_mem c hc')

theorem Constraint.evalOr_ok_true_iff (cs : List Constraint) (h : FactHandle)
    (ctx : ConstraintContext) :
    Constraint.evalOr cs h ctx = .ok true ↔ ∃ c ∈ cs, c.evaluate h ctx = .ok true := by
  induction cs with
  | nil => simp [Constraint.evalOr]
  | cons c rest ih =>
    obtain ⟨b, hb⟩ := Constraint.evaluate_isOk c h ctx
    cases b with
    | true =>
      simp only [Constraint.evalOr, hb]
      constructor
      · intro _; exact ⟨c, List.mem_cons_self c rest, hb⟩
      · intro _; trivial
    | false =>
      simp only [Constraint.evalOr, hb]
      rw [ih]
      constructor
      · rintro ⟨c', hc', htrue⟩
        exact ⟨c', List.mem_cons_of_mem c hc', htrue⟩
      · rintro ⟨c', hc', htrue⟩
        rcases List.mem_cons.mp hc' with rfl | hmem
        · rw [hb] at htrue; cases htrue
        · exact ⟨c', hmem, htrue⟩

theorem Constraint.evalAnd_append_false (pre : List Constraint) (c : Constraint)
    (post : List Constraint) (h : FactHandle) (ctx : ConstraintContext)
    (hpre : ∀ c' ∈ pre, c'.evaluate h ctx = .ok true)
    (hc : c.evaluate h ctx = .ok false) :
    Constraint.evalAnd (pre ++ c :: post) h ctx = .ok false := by
  induction pre with
  | nil => simp [Constraint.evalAnd, hc]
  | cons p rest ih =>
    have hp := hpre p (List.mem_cons_self p rest)
    simp only [List.cons_append, Constraint.evalAnd, hp]
    exact ih (fun c' hc' => hpre c' (List.mem_cons_of_mem p hc'))

theorem Constraint.evalOr_append_true (pre : List Constraint) (c : Constraint)
    (post : List Constraint) (h : FactHandle) (ctx : ConstraintContext)
    (hpre : ∀ c' ∈ pre, c'.evaluate h ctx = .ok false)
    (hc : c.evaluate h ctx = .ok true) :
    Constraint.evalOr (pre ++ c :: post) h ctx = .ok true := by
  induction pre with
  | nil => simp [Constraint.evalOr, hc]
  | cons p rest ih =>
    have hp := hpre p (List.mem_cons_self p rest)
    simp only [List.cons_append, Constraint.evalOr, hp]
    exact ih (fun c' hc' => hpre c' (List.mem_cons_of_mem p hc'))

/-- **C8.** For every fact, context, and list of child constraints:
`AndConstraint::evaluate` returns true iff every child evaluates to true
(in particular it returns true on the empty list, and a false child decides
the result regardless of the children after it); `OrConstraint::evaluate`
returns true iff some child evaluates to true (in particular it returns false
on the empty list, and a true child decides the result regardless of the
children after it). -/
theorem c8_and_or_evaluate (h : FactHandle) (ctx : ConstraintContext) :
    (∀ cs : List Constraint,
      ((Constraint.cand cs).evaluate h ctx = .ok true ↔
        ∀ c ∈ cs, c.evaluate h ctx = .ok true)) ∧
    (Constraint.cand []).evaluate h ctx = .ok true ∧
    (∀ (pre : List Constraint) (c : Constraint) (post : List Constraint),
      (∀ c' ∈ pre, c'.evaluate h ctx = .ok true) → c.evaluate h ctx = .ok false →
      (Constraint.cand (pre ++ c :: post)).evaluate h ctx = .ok false) ∧
    (∀ cs : List Constraint,
      ((Constraint.cor cs).evaluate h ctx = .ok true ↔
        ∃ c ∈ cs, c.evaluate h ctx = .ok true)) ∧
    (Constraint.cor []).evaluate h ctx = .ok false ∧
    (∀ (pre : List Constraint) (c : Constraint) (post : List Constraint),
      (∀ c' ∈ pre, c'.evaluate h ctx = .ok false) → c.evaluate h ctx = .ok true →
      (Constraint.cor (pre ++ c :: post)).evaluate h ctx = .ok true) := by
  refine ⟨?_, rfl, ?_, ?_, rfl, ?_⟩
  · intro cs
    simpa [Constraint.evaluate] using Constraint.evalAnd_ok_true_iff cs h ctx
  · intro pre c post hpre hc
    simpa [Constraint.evaluate] using Constraint.evalAnd_append_false pre c post h ctx hpre hc
  · intro cs
    simpa [Constraint.evaluate] using Constraint.evalOr_ok_true_iff cs h ctx
  · intro pre c post hpre hc
    simpa [Constraint.evaluate] using Constraint.evalOr_append_true pre c post h ctx hpre hc

/-! ## Association lists: the model of `HashMap` -/

/-- `HashMap::get`. -/
def alLookup {κ α : Type} [DecidableEq κ] : List (κ × α) → κ → Option α
  | [], _ => none
  | (k', v) :: rest, k => if k' = k then some v else alLookup rest k

/-- `HashMap::insert` (replaces the value of an existing key). -/
def alInsert {κ α : Type} [DecidableEq κ] : List (κ × α) → κ → α → List (κ × α)
  | [], k, v => [(k, v)]
  | (k', v') :: rest, k, v =>
    if k' = k then (k, v) :: rest else (k', v') :: alInsert rest k v

/-- `HashMap::remove` (keys are unique in a `HashMap`; removing drops every
entry with the key). -/
def alErase {κ α : Type} [DecidableEq κ] : List (κ × α) → κ → List (κ × α)
  | [], _ => []
  | (k', v') :: rest, k =>
    if k' = k then alErase rest k else (k', v') :: alErase rest k

theorem alLookup_mem {κ α : Type} [DecidableEq κ] {l : List (κ × α)} {k : κ} {v : α}
    (hl : alLookup l k = some v) : (k, v) ∈ l := by
  induction l with
  | nil => cases hl
  | cons p rest ih =>
    obtain ⟨k', v'⟩ := p
    by_cases hk : k' = k
    · subst hk
      simp [alLookup] at hl
      subst hl
      exact List.mem_cons_self _ _
    · simp [alLookup, hk] at hl
      exact List.mem_cons_of_mem _ (ih hl)

theorem mem_alInsert {κ α : Type} [DecidableEq κ] {l : List (κ × α)} {k : κ} {v : α}
    {p : κ × α} (hp : p ∈ alInsert l k v) : p = (k, v) ∨ p ∈ l := by
  induction l with
  | nil => simpa [alInsert] using hp
  | cons q rest ih =>
    obtain ⟨k', v'⟩ := q
    by_cases hk : k' = k
    · subst hk
      simp only [alInsert, if_pos rfl] at hp
      rcases List.mem_cons.mp hp with rfl | hmem
      · exact Or.inl rfl
      · exact Or.inr (List.mem_cons_of_mem _ hmem)
    · simp only [alInsert, if_neg hk] at hp
      rcases List.mem_cons.mp hp with rfl | hmem
      · exact Or.inr (List.mem_cons_self _ _)
      · rcases ih hmem with h | h
        · exact Or.inl h
        · exact Or.inr (List.mem_cons_of_mem _ h)

theorem mem_alErase {κ α : Type} [DecidableEq κ] {l : List (κ × α)} {k : κ}
    {p : κ × α} (hp : p ∈ alErase l k) : p ∈ l ∧ p.1 ≠ k := by
  induction l with
  | nil => cases hp
  | cons q rest ih =>
    obtain ⟨k', v'⟩ := q
    by_cases hk : k' = k
    · subst hk
      simp only [alErase, if_pos rfl] at hp
      exact ⟨List.mem_cons_of_mem _ (ih hp).1, (ih hp).2⟩
    · simp only [alErase, if_neg hk] at hp
      rcases List.mem_cons.mp hp with rfl | hmem
      · exact ⟨List.mem_cons_self _ _, hk⟩
      · exact ⟨List.mem_cons_of_mem _ (ih hmem).1, (ih hmem).2⟩

/-! ## Patterns (`pattern.rs`) -/

/-- The closed set of pattern kinds: `ObjectPattern<T>` (type tag, alias,
constraint list), `NotPattern`, `ExistsPattern`. -/
inductive Pattern where
  | object (type_id : Nat) (palias : String) (constraints : List Constraint)
  | pnot (pattern : Pattern)
  | pexists (pattern : Pattern)

/-- `Pattern::type_id` for each impl. -/
def Pattern.type_id : Pattern → Nat
  | .object tid _ _ => tid
  | .pnot p => p.type_id
  | .pexists p => p.type_id

/-- `Pattern::alias` for each impl. -/
def Pattern.aliasOf : Pattern → String
  | .object _ a _ => a
  | .pnot p => p.aliasOf
  | .pexists p => p.aliasOf

/-- `Pattern::matches` for each impl.  `ObjectPattern::matches` checks the
type tag and then runs the same early-exit loop over its constraints as
`AndConstraint::evaluate`. -/
def Pattern.matches : Pattern → FactHandle → ConstraintContext → Except Error Bool
  | .object tid _ cs, h, ctx =>
    if h.type_id ≠ tid then .ok false else Constraint.evalAnd cs h ctx
  | .pnot p, h, ctx =>
    match p.matches h ctx with
    | .error e => .error e
    | .ok b => .ok (!b)
  | .pexists p, h, ctx => p.matches h ctx

/-- Over the repository's closed constraint set, `Pattern::matches` never
errors: every branch forwards to constraint evaluation, which always
returns `Ok`. -/
theorem Pattern.matches_isOk (p : Pattern) (h : FactHandle) (ctx : ConstraintContext) :
    ∃ b, p.matches h ctx = .ok b := by
  induction p with
  | object tid a cs =>
    by_cases ht : h.type_id ≠ tid
    · refine ⟨false, ?_⟩
      unfold Pattern.matches
      rw [if_pos ht]
    · obtain ⟨b, hb⟩ := Constraint.evalAnd_isOk cs h ctx
      refine ⟨b, ?_⟩
      unfold Pattern.matches
      rw [if_neg ht]
      exact hb
  | pnot p ih =>
    obtain ⟨b, hb⟩ := ih
    refine ⟨!b, ?_⟩
    unfold Pattern.matches
    simp only [hb]
  | pexists p ih =>
    obtain ⟨b, hb⟩ := ih
    refine ⟨b, ?_⟩
    unfold Pattern.matches
    exact hb

/-! ## Working memory (`working_memory.rs`) -/

/-- The type index update `facts_by_type.entry(t).or_insert(vec![]).push(h)`. -/
def tiPush : List (Nat × List FactHandle) → Nat → FactHandle → List (Nat × List FactHandle)
  | [], t, h => [(t, [h])]
  | (t', b) :: rest, t, h =>
    if t' = t then (t', b ++ [h]) :: rest else (t', b) :: tiPush rest t h

/-- The type index update `facts.retain(|f| f.id != fact_id)` applied to the
bucket of `tid`. -/
def tiRetain (l : List (Nat × List FactHandle)) (tid : Nat) (id : Nat) :
    List (Nat × List FactHandle) :=
  l.map (fun tb => if tb.1 = tid then (tb.1, tb.2.filter (fun f => f.id ≠ id)) else tb)

/-- `WorkingMemory`: primary id index, type index, recency counter.
`next_id` models the process-wide `FactId` allocation counter. -/
structure WorkingMemory where
  facts : List (Nat × FactHandle)
  facts_by_type : List (Nat × List FactHandle)
  recency : Nat
  next_id : Nat
deriving Repr

/-- `WorkingMemory::new()` (the `FactId` counter starts at 1). -/
def WorkingMemory.new : WorkingMemory := ⟨[], [], 0, 1⟩

/-- `WorkingMemory::assert`: draw recency, build a fresh handle, insert into
both indices.  Infallible in the source (always `Ok`). -/
def WorkingMemory.assertFact (wm : WorkingMemory) (type_id value : Nat) :
    FactHandle × WorkingMemory :=
  let h : FactHandle := ⟨wm.next_id, type_id, value, wm.recency⟩
  (h, { facts := alInsert wm.facts h.id h
        facts_by_type := tiPush wm.facts_by_type type_id h
        recency := wm.recency + 1
        next_id := wm.next_id + 1 })

/-- `WorkingMemory::retract`: remove from both indices, `FactNotFound` when
the id is absent. -/
def WorkingMemory.retract (wm : WorkingMemory) (fact_id : Nat) :
    Except Error (FactHandle × WorkingMemory) :=
  match alLookup wm.facts fact_id with
  | none => .error (.factNotFound ("FactId(" ++ toString fact_id ++ ")"))
  | some h =>
    .ok (h, { wm with
              facts := alErase wm.facts fact_id
              facts_by_type := tiRetain wm.facts_by_type h.type_id fact_id })

/-- `WorkingMemory::modify`: retract, then re-insert a handle with the same
id, type and shared payload but a freshly drawn recency. -/
def WorkingMemory.modify (wm : WorkingMemory) (fact_id : Nat) :
    Except Error (FactHandle × WorkingMemory) :=
  match wm.retract fact_id with
  | .error e => .error e
  | .ok (old, wm1) =>
    let h' : FactHandle := ⟨old.id, old.type_id, old.value, wm1.recency⟩
    .ok (h', { wm1 with
               recency := wm1.recency + 1
               facts := alInsert wm1.facts fact_id h'
               facts_by_type := tiPush wm1.facts_by_type h'.type_id h' })

/-- `WorkingMemory::len`. -/
def WorkingMemory.len (wm : WorkingMemory) : Nat := wm.facts.length

/-- Well-formedness of a working-memory state, maintained by the API:
every primary entry is keyed by its handle's id and was stamped before the
current recency counter, and every type-index member sits in the bucket of
its own type tag. -/
def WorkingMemory.WF (wm : WorkingMemory) : Prop :=
  (∀ p ∈ wm.facts, p.2.id = p.1 ∧ p.2.recency < wm.recency) ∧
  (∀ tb ∈ wm.facts_by_type, ∀ h ∈ tb.2, h.type_id = tb.1)

instance (wm : WorkingMemory) : Decidable wm.WF := by
  unfold WorkingMemory.WF
  infer_instance

theorem mem_tiPush {l : List (Nat × List FactHandle)} {t : Nat} {hh : FactHandle}
    {tb : Nat × List FactHandle} {x : FactHandle}
    (htb : tb ∈ tiPush l t hh) (hx : x ∈ tb.2) :
    x = hh ∨ ∃ tb' ∈ l, tb'.1 = tb.1 ∧ x ∈ tb'.2 := by
  induction l with
  | nil =>
    simp only [tiPush, List.mem_singleton] at htb
    subst htb
    rcases List.mem_singleton.mp hx with rfl
    exact Or.inl rfl
  | cons q rest ih =>
    obtain ⟨t', b⟩ := q
    by_cases ht : t' = t
    · subst ht
      simp only [tiPush, if_pos rfl] at htb
      rcases List.mem_cons.mp htb with rfl | hmem
      · rcases List.mem_append.mp hx with hxb | hxh
        · exact Or.inr ⟨(t', b), List.mem_cons_self _ _, rfl, hxb⟩
        · exact Or.inl (List.mem_singleton.mp hxh)
      · exact Or.inr ⟨tb, List.mem_cons_of_mem _ hmem, rfl, hx⟩
    · simp only [tiPush, if_neg ht] at htb
      rcases List.mem_cons.mp htb with rfl | hmem
      · exact Or.inr ⟨(t', b), List.mem_cons_self _ _, rfl, hx⟩
      · rcases ih hmem with h | ⟨tb', htb', h1, h2⟩
        · exact Or.inl h
        · exact Or.inr ⟨tb', List.mem_cons_of_mem _ htb', h1, h2⟩

theorem mem_tiRetain {l : List (Nat × List FactHandle)} {tid id : Nat}
    {tb : Nat × List FactHandle} {x : FactHandle}
    (htb : tb ∈ tiRetain l tid id) (hx : x ∈ tb.2) :
    ∃ tb' ∈ l, tb'.1 = tb.1 ∧ x ∈ tb'.2 ∧ (tb.1 = tid → x.id ≠ id) := by
  unfold tiRetain at htb
  rcases List.mem_map.mp htb with ⟨tb', htb', heq⟩
  by_cases ht : tb'.1 = tid
  · rw [if_pos ht] at heq
    subst heq
    simp only at hx ⊢
    have hfil := List.mem_filter.mp hx
    refine ⟨tb', htb', rfl, hfil.1, fun _ => ?_⟩
    simpa using hfil.2
  · rw [if_neg ht] at heq
    subst heq
    exact ⟨tb', htb', rfl, hx, fun hcon => absurd hcon ht⟩

/-- **C2.** For every FactId present in working memory, `modify(id)` returns a
new handle with the same FactId, the same type tag, the same shared payload,
and a recency strictly greater than the old handle's; afterwards the old
handle is reachable from neither the primary map nor the type index. -/
theorem c2_modify_fresh_handle (wm : WorkingMemory) (id : Nat) (h : FactHandle)
    (hwf : wm.WF) (hget : alLookup wm.facts id = some h) :
    ∃ h' wm', wm.modify id = .ok (h', wm') ∧
      h'.id = h.id ∧ h'.type_id = h.type_id ∧ h'.value = h.value ∧
      h.recency < h'.recency ∧
      (∀ p ∈ wm'.facts, p.2 ≠ h) ∧
      (∀ tb ∈ wm'.facts_by_type, ∀ h2 ∈ tb.2, h2 ≠ h) := by
  obtain ⟨hwf1, hwf2⟩ := hwf
  have hhm : (id, h) ∈ wm.facts := alLookup_mem hget
  obtain ⟨hid, hrec⟩ := hwf1 (id, h) hhm
  simp only at hid hrec
  refine ⟨⟨h.id, h.type_id, h.value, wm.recency⟩,
    { facts := alInsert (alErase wm.facts id) id ⟨h.id, h.type_id, h.value, wm.recency⟩
      facts_by_type :=
        tiPush (tiRetain wm.facts_by_type h.type_id id) h.type_id
          ⟨h.id, h.type_id, h.value, wm.recency⟩
      recency := wm.recency + 1
      next_id := wm.next_id },
    by simp only [WorkingMemory.modify, WorkingMemory.retract, hget], rfl, rfl, rfl, hrec, ?_, ?_⟩
  · intro p hp
    rcases mem_alInsert hp with rfl | hmem
    · intro hcon
      have : h.recency = wm.recency := by rw [← hcon]
      omega
    · obtain ⟨hpw, hpne⟩ := mem_alErase hmem
      have := (hwf1 p hpw).1
      intro hcon
      rw [hcon] at this
      rw [hid] at this
      exact hpne this.symm
  · intro tb htb h2 hh2
    rcases mem_tiPush htb hh2 with rfl | ⟨tb1, htb1, hkey, hmem1⟩
    · intro hcon
      have : h.recency = wm.recency := by rw [← hcon]
      omega
    · obtain ⟨tb', htb', hkey', hmem', hfid⟩ := mem_tiRetain htb1 hmem1
      have htype := hwf2 tb' htb' h2 hmem'
      by_cases hsame : tb1.1 = h.type_id
      · have hne := hfid hsame
        intro hcon
        rw [hcon, hid] at hne
        exact hne rfl
      · intro hcon
        rw [hcon] at htype
        rw [hkey'] at htype
        exact hsame htype.symm

/-- Witness for C2 at a concrete working memory holding one fact. -/
theorem c2_modify_fresh_handle_witness :
    ∃ h' wm', (WorkingMemory.assertFact WorkingMemory.new 7 42).2.modify 1 = .ok (h', wm') ∧
      h'.id = FactHandle.id ⟨1, 7, 42, 0⟩ ∧
      h'.type_id = FactHandle.type_id ⟨1, 7, 42, 0⟩ ∧
      h'.value = FactHandle.value ⟨1, 7, 42, 0⟩ ∧
      FactHandle.recency ⟨1, 7, 42, 0⟩ < h'.recency ∧
      (∀ p ∈ wm'.facts, p.2 ≠ ⟨1, 7, 42, 0⟩) ∧
      (∀ tb ∈ wm'.facts_by_type, ∀ h2 ∈ tb.2, h2 ≠ ⟨1, 7, 42, 0⟩) :=
  c2_modify_fresh_handle (WorkingMemory.assertFact WorkingMemory.new 7 42).2 1
    ⟨1, 7, 42, 0⟩ (by decide) (by decide)

/-! ## Rules, matches, activations (`rule.rs`) -/

/-- The command language standing in for the arbitrary Rust action closures
`Fn(&mut Session, &Match) -> Result<()>`: the effect-free action
(`|_, _| Ok(())`), an action that calls `session.halt()`, an action that
returns an error, and actions performing the session mutations the API
offers — `session.focus(group)?`, `session.assert(value)?`,
`session.retract(id)?`, `session.modify(id)?`.  Interpreted by
`RuleAction.exec` below, after the session operations are defined. -/
inductive RuleAction where
  | noop
  | halt
  | fail (msg : String)
  | focus (group : String)
  | assertF (type_id value : Nat)
  | retractF (fact_id : Nat)
  | modifyF (fact_id : Nat)
deriving DecidableEq, Repr

/-- `rule.rs::Match`: facts by alias plus the binding context. -/
structure Match where
  facts : List (String × FactHandle)
  context : ConstraintContext
deriving DecidableEq, Repr

/-- `Match::new`. -/
def Match.new : Match := ⟨[], ConstraintContext.new⟩

/-- `Match::insert`: records the fact under the alias in both the fact map
and the context. -/
def Match.insert (m : Match) (a : String) (h : FactHandle) : Match :=
  ⟨alInsert m.facts a h, m.context.set a h⟩

/-- `rule.rs::Rule`. -/
structure Rule where
  name : String
  patterns : List Pattern
  action : RuleAction
  priority : Int
  agenda_group : String
  auto_focus : Bool

/-- `rule.rs::Activation`. -/
structure Activation where
  rule : Rule
  match_data : Match
  recency : Nat

/-- `Activation::salience`. -/
def Activation.salience (a : Activation) : Int := a.rule.priority

/-! ## Agenda (`agenda.rs`) -/

/-- `agenda.rs::ConflictResolution`. -/
inductive ConflictResolution where
  | salience
  | activationRecency
  | factRecency
deriving DecidableEq, Repr

/-- Rust `Ord::cmp` on `i32` (overflow-free comparison). -/
def ordCmpI (x y : Int) : Ordering :=
  if x < y then .lt else if x = y then .eq else .gt

/-- Rust `Ord::cmp` on `u64`. -/
def ordCmpN (x y : Nat) : Ordering :=
  if x < y then .lt else if x = y then .eq else .gt

/-- `match_data.facts.values().map(|f| f.recency).max().unwrap_or(0)`. -/
def Activation.maxFactRecency (a : Activation) : Nat :=
  (a.match_data.facts.map (fun p => p.2.recency)).foldr max 0

/-- One strategy key of `ActivationWrapper::compare`. -/
def strategyOrd : ConflictResolution → Activation → Activation → Ordering
  | .salience, a, b => ordCmpI a.salience b.salience
  | .activationRecency, a, b => ordCmpN a.recency b.recency
  | .factRecency, a, b => ordCmpN a.maxFactRecency b.maxFactRecency

/-- `agenda.rs::ActivationWrapper`: an activation plus a copy of the
configured strategy tuple. -/
structure ActivationW where
  activation : Activation
  strategies : List ConflictResolution

/-- The strategy loop of `ActivationWrapper::compare`: first non-equal key
wins, `Equal` when all keys tie. -/
def stratLoop : List ConflictResolution → Activation → Activation → Ordering
  | [], _, _ => .eq
  | s :: rest, a, b =>
    match strategyOrd s a b with
    | .eq => stratLoop rest a b
    | o => o

/-- `ActivationWrapper::compare` (driven by the left wrapper's strategy copy,
as in the source). -/
def ActivationW.compare (w1 w2 : ActivationW) : Ordering :=
  stratLoop w1.strategies w1.activation w2.activation

/-- `BinaryHeap::pop`: removes a greatest element under the comparator.  The
model removes the leftmost maximal element, an admissible refinement of the
heap contract (ties are unspecified in Rust). -/
def popMax {α : Type} (cmp : α → α → Ordering) : List α → Option (α × List α)
  | [] => none
  | x :: xs =>
    match popMax cmp xs with
    | none => some (x, [])
    | some (y, ys) => if cmp x y = .lt then some (y, x :: ys) else some (x, xs)

/-- `agenda.rs::AgendaGroup`. -/
structure AgendaGroup where
  name : String
  activations : List ActivationW
  strategies : List ConflictResolution

/-- `AgendaGroup::new`. -/
def AgendaGroup.new (name : String) (strategies : List ConflictResolution) : AgendaGroup :=
  ⟨name, [], strategies⟩

/-- `AgendaGroup::insert`: push a wrapper carrying the group's strategies. -/
def AgendaGroup.insert (g : AgendaGroup) (act : Activation) : AgendaGroup :=
  { g with activations := g.activations ++ [⟨act, g.strategies⟩] }

/-- `AgendaGroup::pop`. -/
def AgendaGroup.pop (g : AgendaGroup) : AgendaGroup × Option Activation :=
  match popMax ActivationW.compare g.activations with
  | none => (g, none)
  | some (w, rest) => ({ g with activations := rest }, some w.activation)

/-- `AgendaGroup::is_empty`. -/
def AgendaGroup.is_empty (g : AgendaGroup) : Bool := g.activations.isEmpty

/-- `AgendaGroup::clear`. -/
def AgendaGroup.clear (g : AgendaGroup) : AgendaGroup := { g with activations := [] }

/-- `agenda.rs::Agenda`.  The focus stack is stored top-first (the Rust `Vec`
stores bottom-first with the top at the end); `registered_rules` models the
`HashSet` as a list. -/
structure Agenda where
  groups : List (String × AgendaGroup)
  focus_stack : List String
  strategies : List ConflictResolution
  registered_rules : List String

/-- `Agenda::add_agenda_group`: no-op when the group exists. -/
def Agenda.add_agenda_group (a : Agenda) (name : String) : Agenda :=
  if (alLookup a.groups name).isSome then a
  else { a with groups := alInsert a.groups name (AgendaGroup.new name a.strategies) }

/-- `Agenda::get_focused`: the top of the focus stack. -/
def Agenda.get_focused (a : Agenda) : Option String := a.focus_stack.head?

/-- `Agenda::set_focus`: error on unknown group; push unless already top. -/
def Agenda.set_focus (a : Agenda) (name : String) : Agenda × Option Error :=
  if (alLookup a.groups name).isNone then (a, some (.agendaGroupNotFound name))
  else if a.get_focused ≠ some name then
    ({ a with focus_stack := name :: a.focus_stack }, none)
  else (a, none)

/-- `Agenda::with_strategies`: create the `"main"` group and focus it. -/
def Agenda.with_strategies (strategies : List ConflictResolution) : Agenda :=
  (((⟨[], [], strategies, []⟩ : Agenda).add_agenda_group "main").set_focus "main").1

/-- `Agenda::new`: the default strategy tuple `(salience, activation
recency)`. -/
def Agenda.new : Agenda :=
  Agenda.with_strategies [.salience, .activationRecency]

/-- `Agenda::register_rule`. -/
def Agenda.register_rule (a : Agenda) (rule_name : String)
    (agenda_group : Option String) : Agenda :=
  let a1 := { a with registered_rules := rule_name :: a.registered_rules }
  match agenda_group with
  | some g => a1.add_agenda_group g
  | none => a1

/-- `Agenda::insert`: ensure the rule's group exists, push the activation,
then auto-focus if the rule requests it. -/
def Agenda.insert (a : Agenda) (act : Activation) : Agenda × Option Error :=
  let gname := act.rule.agenda_group
  let a1 := if (alLookup a.groups gname).isSome then a else a.add_agenda_group gname
  match alLookup a1.groups gname with
  | none => (a1, some (.agendaGroupNotFound gname))
  | some grp =>
    let a2 := { a1 with groups := alInsert a1.groups gname (grp.insert act) }
    if act.rule.auto_focus then a2.set_focus gname else (a2, none)

/-- The `while let Some(focused) = ...` loop of `Agenda::pop`, walking the
focus stack top-down: return an activation from the first group that yields
one, drop empty or missing groups unless they are `"main"`, stop at
`"main"`. -/
def Agenda.popAux (groups : List (String × AgendaGroup)) :
    List String → List String × List (String × AgendaGroup) × Option Activation
  | [] => ([], groups, none)
  | g :: rest =>
    match alLookup groups g with
    | some grp =>
      match popMax ActivationW.compare grp.activations with
      | some (w, l') =>
        (g :: rest, alInsert groups g { grp with activations := l' }, some w.activation)
      | none =>
        if g ≠ "main" then Agenda.popAux groups rest else (g :: rest, groups, none)
    | none =>
      if g ≠ "main" then Agenda.popAux groups rest else (g :: rest, groups, none)

/-- `Agenda::pop`. -/
def Agenda.pop (a : Agenda) : Agenda × Option Activation :=
  ({ a with focus_stack := (Agenda.popAux a.groups a.focus_stack).1,
            groups := (Agenda.popAux a.groups a.focus_stack).2.1 },
   (Agenda.popAux a.groups a.focus_stack).2.2)

/-- `Agenda::is_empty`: every group reachable from the focus stack is
empty. -/
def Agenda.is_empty (a : Agenda) : Bool :=
  a.focus_stack.all (fun g =>
    match alLookup a.groups g with
    | some grp => grp.activations.isEmpty
    | none => true)

/-- `Agenda::clear`. -/
def Agenda.clear (a : Agenda) : Agenda :=
  { a with groups := a.groups.map (fun p => (p.1, p.2.clear)) }

/-- `Agenda::dispose`: clears groups, focus stack and registered rules. -/
def Agenda.dispose (a : Agenda) : Agenda :=
  { a with groups := [], focus_stack := [], registered_rules := [] }

theorem alLookup_alInsert_self {κ α : Type} [DecidableEq κ] (l : List (κ × α)) (k : κ) (v : α) :
    alLookup (alInsert l k v) k = some v := by
  induction l with
  | nil => simp [alInsert, alLookup]
  | cons p rest ih =>
    obtain ⟨k', v'⟩ := p
    by_cases hk : k' = k
    · subst hk
      simp [alInsert, alLookup]
    · simp [alInsert, alLookup, hk, ih]

theorem Agenda.set_focus_of_mem (a : Agenda) (name : String)
    (h : (alLookup a.groups name).isSome = true) :
    (a.set_focus name).2 = none ∧ (a.set_focus name).1.groups = a.groups := by
  have hcond : ¬ ((alLookup a.groups name).isNone = true) := by
    cases hlk : alLookup a.groups name with
    | none => rw [hlk] at h; cases h
    | some g => simp
  unfold Agenda.set_focus
  rw [if_neg hcond]
  by_cases hfoc : a.get_focused ≠ some name
  · rw [if_pos hfoc]
    exact ⟨rfl, rfl⟩
  · rw [if_neg hfoc]
    exact ⟨rfl, rfl⟩

/-- **C10.** `Agenda::insert` never returns `AgendaGroupNotFound`: inserting
an activation whose rule names an agenda group that does not exist yet
creates that group on demand (with the agenda's configured strategies) and
succeeds. -/
theorem alLookup_alInsert_isSome {κ α : Type} [DecidableEq κ] (l : List (κ × α)) (k : κ)
    (v : α) : (alLookup (alInsert l k v) k).isSome = true := by
  rw [alLookup_alInsert_self]; rfl

theorem Agenda.insert_post (a' : Agenda) (gname : String) (auto : Bool)
    (hmem : (alLookup a'.groups gname).isSome = true) :
    (if auto = true then a'.set_focus gname else (a', none)).2 = none ∧
    (alLookup (if auto = true then a'.set_focus gname else (a', none)).1.groups gname).isSome
      = true := by
  by_cases hauto : auto = true
  · rw [if_pos hauto]
    have hsf := Agenda.set_focus_of_mem a' gname hmem
    refine ⟨hsf.1, ?_⟩
    rw [hsf.2]
    exact hmem
  · rw [if_neg hauto]
    exact ⟨rfl, hmem⟩

/-- **C10.** `Agenda::insert` never returns `AgendaGroupNotFound`: inserting
an activation whose rule names an agenda group that does not exist yet
creates that group on demand (with the agenda's configured strategies) and
succeeds. -/
theorem c10_insert_never_fails (a : Agenda) (act : Activation) :
    (a.insert act).2 = none ∧
    (alLookup (a.insert act).1.groups act.rule.agenda_group).isSome = true := by
  unfold Agenda.insert
  cases hlk : alLookup a.groups act.rule.agenda_group with
  | some grp =>
    simp only [hlk, Option.isSome_some, if_true, ite_true, eq_self_iff_true]
    exact Agenda.insert_post _ _ _ (alLookup_alInsert_isSome _ _ _)
  | none =>
    simp only [hlk, Option.isSome_none]
    rw [if_neg (by simp)]
    have hstep : (a.add_agenda_group act.rule.agenda_group).groups =
        alInsert a.groups act.rule.agenda_group
          (AgendaGroup.new act.rule.agenda_group a.strategies) := by
      unfold Agenda.add_agenda_group
      rw [if_neg (by rw [hlk]; simp)]
    rw [hstep, alLookup_alInsert_self]
    simp only
    exact Agenda.insert_post _ _ _ (alLookup_alInsert_isSome _ _ _)

/-! ## The focus-stack invariant (claim C6) -/

/-- The focus-stack invariant: `"main"` sits at the bottom (the stack is
stored top-first, so at the last position) and no two consecutive entries are
equal. -/
def AgendaInv (a : Agenda) : Prop :=
  a.focus_stack.getLast? = some "main" ∧ a.focus_stack.Chain' (· ≠ ·)

theorem agendaInv_push {st : List String} {name : String}
    (hlast : st.getLast? = some "main") (hchain : st.Chain' (· ≠ ·))
    (hne : st.head? ≠ some name) :
    (name :: st).getLast? = some "main" ∧ (name :: st).Chain' (· ≠ ·) := by
  cases st with
  | nil => cases hlast
  | cons h t =>
    constructor
    · rw [List.getLast?_cons_cons]
      exact hlast
    · rw [List.chain'_cons]
      refine ⟨?_, hchain⟩
      intro hcon
      exact hne (by simp [hcon])

theorem popAux_stack_inv (groups : List (String × AgendaGroup)) (st : List String)
    (hlast : st.getLast? = some "main") (hchain : st.Chain' (· ≠ ·)) :
    (Agenda.popAux groups st).1.getLast? = some "main" ∧
    (Agenda.popAux groups st).1.Chain' (· ≠ ·) := by
  induction st with
  | nil => cases hlast
  | cons g rest ih =>
    have hstep : ∀ hg : ¬ (g = "main"),
        (Agenda.popAux groups rest).1.getLast? = some "main" ∧
        (Agenda.popAux groups rest).1.Chain' (· ≠ ·) := by
      intro hg
      cases rest with
      | nil =>
        exfalso
        have : g = "main" := by simpa using hlast
        exact hg this
      | cons r t =>
        exact ih (by simpa [List.getLast?_cons_cons] using hlast)
          ((List.chain'_cons.mp hchain).2)
    unfold Agenda.popAux
    split
    · split
      · exact ⟨hlast, hchain⟩
      · by_cases hg : g = "main"
        · rw [if_neg (by simpa using hg)]
          exact ⟨hlast, hchain⟩
        · rw [if_pos (by simpa using hg)]
          exact hstep hg
    · by_cases hg : g = "main"
      · rw [if_neg (by simpa using hg)]
        exact ⟨hlast, hchain⟩
      · rw [if_pos (by simpa using hg)]
        exact hstep hg

theorem popAux_count_main (groups : List (String × AgendaGroup)) (st : List String) :
    (Agenda.popAux groups st).1.count "main" = st.count "main" := by
  induction st with
  | nil => rfl
  | cons g rest ih =>
    unfold Agenda.popAux
    split
    · split
      · rfl
      · by_cases hg : g = "main"
        · rw [if_neg (by simpa using hg)]
        · rw [if_pos (by simpa using hg)]
          rw [ih]
          simp [List.count_cons, hg]
    · by_cases hg : g = "main"
      · rw [if_neg (by simpa using hg)]
      · rw [if_pos (by simpa using hg)]
        rw [ih]
        simp [List.count_cons, hg]

instance (a : Agenda) : Decidable (AgendaInv a) :=
  inferInstanceAs (Decidable
    (a.focus_stack.getLast? = some "main" ∧ a.focus_stack.Chain' (· ≠ ·)))

theorem Agenda.with_strategies_focus (s : List ConflictResolution) :
    (Agenda.with_strategies s).focus_stack = ["main"] := rfl

theorem Agenda.add_agenda_group_stack (a : Agenda) (name : String) :
    (a.add_agenda_group name).focus_stack = a.focus_stack := by
  unfold Agenda.add_agenda_group
  split
  · rfl
  · rfl

theorem Agenda.register_rule_stack (a : Agenda) (rn : String) (g : Option String) :
    (a.register_rule rn g).focus_stack = a.focus_stack := by
  unfold Agenda.register_rule
  cases g with
  | none => rfl
  | some gr => exact Agenda.add_agenda_group_stack _ _

theorem Agenda.set_focus_stack (a : Agenda) (name : String)
    (hmem : (alLookup a.groups name).isSome = true) :
    (a.set_focus name).1.focus_stack =
      if a.focus_stack.head? ≠ some name then name :: a.focus_stack
      else a.focus_stack := by
  unfold Agenda.set_focus
  rw [if_neg (by cases hlk : alLookup a.groups name
                 · rw [hlk] at hmem; cases hmem
                 · simp)]
  by_cases hfoc : a.get_focused ≠ some name
  · rw [if_pos hfoc, if_pos (show a.focus_stack.head? ≠ some name from hfoc)]
  · rw [if_neg hfoc, if_neg (show ¬ a.focus_stack.head? ≠ some name from hfoc)]

theorem Agenda.insert_stack (a : Agenda) (act : Activation) :
    (a.insert act).1.focus_stack =
      if act.rule.auto_focus = true ∧ a.focus_stack.head? ≠ some act.rule.agenda_group
      then act.rule.agenda_group :: a.focus_stack
      else a.focus_stack := by
  unfold Agenda.insert
  cases hlk : alLookup a.groups act.rule.agenda_group with
  | some grp =>
    simp only [hlk, Option.isSome_some, if_true, ite_true, eq_self_iff_true]
    by_cases hauto : act.rule.auto_focus = true
    · rw [if_pos hauto]
      rw [Agenda.set_focus_stack _ _ (alLookup_alInsert_isSome _ _ _)]
      dsimp only
      by_cases hfoc : a.focus_stack.head? = some act.rule.agenda_group
      · rw [if_neg (by simp [hfoc]), if_neg (by simp [hfoc])]
      · rw [if_pos hfoc, if_pos ⟨hauto, hfoc⟩]
    · rw [if_neg hauto]
      dsimp only
      rw [if_neg (by simp [hauto])]
  | none =>
    simp only [hlk, Option.isSome_none]
    rw [if_neg (by simp)]
    have hstep : (a.add_agenda_group act.rule.agenda_group).groups =
        alInsert a.groups act.rule.agenda_group
          (AgendaGroup.new act.rule.agenda_group a.strategies) := by
      unfold Agenda.add_agenda_group
      rw [if_neg (by rw [hlk]; simp)]
    rw [hstep, alLookup_alInsert_self]
    simp only
    by_cases hauto : act.rule.auto_focus = true
    · rw [if_pos hauto]
      rw [Agenda.set_focus_stack _ _ (alLookup_alInsert_isSome _ _ _)]
      dsimp only
      rw [Agenda.add_agenda_group_stack]
      by_cases hfoc : a.focus_stack.head? = some act.rule.agenda_group
      · rw [if_neg (by simp [hfoc]), if_neg (by simp [hfoc])]
      · rw [if_pos hfoc, if_pos ⟨hauto, hfoc⟩]
    · rw [if_neg hauto]
      dsimp only
      rw [Agenda.add_agenda_group_stack]
      rw [if_neg (by simp [hauto])]

/-- **C6 (amended).** The focus-stack invariant — `"main"` at the bottom, no
consecutive duplicate entries — is established at construction and preserved
by `add_agenda_group`, `set_focus`, `register_rule`, `insert`, `pop` and
`clear` (not by `dispose`, which empties the stack); `pop` never removes a
`"main"` entry; `set_focus` of the group already on top leaves the agenda
unchanged; and inserting an activation whose rule has `auto_focus` set pushes
that rule's group onto the focus stack unless it is already topmost. -/
theorem c6_focus_stack_invariant :
    (∀ strategies, AgendaInv (Agenda.with_strategies strategies)) ∧
    (∀ (a : Agenda) (name : String), AgendaInv a → AgendaInv (a.add_agenda_group name)) ∧
    (∀ (a : Agenda) (name : String), AgendaInv a → AgendaInv (a.set_focus name).1) ∧
    (∀ (a : Agenda) (rn : String) (g : Option String),
      AgendaInv a → AgendaInv (a.register_rule rn g)) ∧
    (∀ (a : Agenda) (act : Activation), AgendaInv a → AgendaInv (a.insert act).1) ∧
    (∀ a : Agenda, AgendaInv a → AgendaInv (a.pop).1) ∧
    (∀ a : Agenda, AgendaInv a → AgendaInv a.clear) ∧
    (∀ a : Agenda, (a.pop).1.focus_stack.count "main" = a.focus_stack.count "main") ∧
    (∀ (a : Agenda) (g : String), a.get_focused = some g → (a.set_focus g).1 = a) ∧
    (∀ (a : Agenda) (act : Activation), act.rule.auto_focus = true →
      (a.insert act).1.focus_stack =
        if a.focus_stack.head? = some act.rule.agenda_group then a.focus_stack
        else act.rule.agenda_group :: a.focus_stack) := by
  have hstackinv : ∀ (a b : Agenda), b.focus_stack = a.focus_stack → AgendaInv a → AgendaInv b := by
    intro a b heq ⟨h1, h2⟩
    exact ⟨by rw [heq]; exact h1, by rw [heq]; exact h2⟩
  refine ⟨?_, ?_, ?_, ?_, ?_, ?_, ?_, ?_, ?_, ?_⟩
  · intro s
    constructor
    · rw [Agenda.with_strategies_focus]; rfl
    · rw [Agenda.with_strategies_focus]; simp
  · intro a name hinv
    exact hstackinv a _ (Agenda.add_agenda_group_stack a name) hinv
  · intro a name hinv
    unfold Agenda.set_focus
    split
    · exact hinv
    · by_cases hfoc : a.get_focused ≠ some name
      · rw [if_pos hfoc]
        exact ⟨(agendaInv_push hinv.1 hinv.2 hfoc).1, (agendaInv_push hinv.1 hinv.2 hfoc).2⟩
      · rw [if_neg hfoc]
        exact hinv
  · intro a rn g hinv
    exact hstackinv a _ (Agenda.register_rule_stack a rn g) hinv
  · intro a act hinv
    have hstack := Agenda.insert_stack a act
    by_cases hcond : act.rule.auto_focus = true ∧
        a.focus_stack.head? ≠ some act.rule.agenda_group
    · rw [if_pos hcond] at hstack
      obtain ⟨h1, h2⟩ := agendaInv_push hinv.1 hinv.2 hcond.2
      exact ⟨by rw [hstack]; exact h1, by rw [hstack]; exact h2⟩
    · rw [if_neg hcond] at hstack
      exact hstackinv a _ hstack hinv
  · intro a hinv
    exact popAux_stack_inv a.groups a.focus_stack hinv.1 hinv.2
  · intro a hinv
    exact hinv
  · intro a
    exact popAux_count_main a.groups a.focus_stack
  · intro a g hfoc
    unfold Agenda.set_focus
    split
    · rfl
    · rw [if_neg (by simp [hfoc])]
  · intro a act hauto
    rw [Agenda.insert_stack]
    by_cases hfoc : a.focus_stack.head? = some act.rule.agenda_group
    · rw [if_neg (by simp [hfoc]), if_pos hfoc]
    · rw [if_pos ⟨hauto, hfoc⟩, if_neg hfoc]

/-- Witness for C6 at concrete agendas: the invariant holds for a freshly
constructed agenda after a pop, and `set_focus` of the current top is a
no-op. -/
theorem c6_focus_stack_invariant_witness :
    AgendaInv ((Agenda.new).pop).1 ∧ ((Agenda.new).set_focus "main").1 = Agenda.new :=
  have hinv : AgendaInv Agenda.new := by
    constructor
    · rfl
    · have h : Agenda.new.focus_stack = ["main"] := rfl
      rw [h]
      exact List.chain'_singleton _
  ⟨c6_focus_stack_invariant.2.2.2.2.2.1 Agenda.new hinv,
   c6_focus_stack_invariant.2.2.2.2.2.2.2.2.1 Agenda.new "main" rfl⟩

/-- C6 counterexample: the claim quantifies over *every* agenda operation,
but `Agenda::dispose` clears the focus stack, removing `"main"` from the
bottom. -/
theorem c6_dispose_counterexample : ¬ AgendaInv (Agenda.dispose Agenda.new) :=
  fun hinv => Option.noConfusion hinv.1

/-! ## `Agenda::pop` step equations and emptiness (claim C5) -/

theorem popAux_cons_found {groups : List (String × AgendaGroup)} {g : String}
    {rest : List String} {grp : AgendaGroup} {w : ActivationW} {l' : List ActivationW}
    (hlk : alLookup groups g = some grp)
    (hpm : popMax ActivationW.compare grp.activations = some (w, l')) :
    Agenda.popAux groups (g :: rest) =
      (g :: rest, alInsert groups g { grp with activations := l' }, some w.activation) := by
  unfold Agenda.popAux
  simp only [hlk, hpm]

theorem popAux_cons_drop_empty {groups : List (String × AgendaGroup)} {g : String}
    {rest : List String} {grp : AgendaGroup}
    (hg : g ≠ "main") (hlk : alLookup groups g = some grp)
    (hpm : popMax ActivationW.compare grp.activations = none) :
    Agenda.popAux groups (g :: rest) = Agenda.popAux groups rest := by
  unfold Agenda.popAux
  simp only [hlk, hpm]
  rw [if_pos (by simpa using hg)]
  cases rest with
  | nil => rfl
  | cons r t => rfl

theorem popAux_cons_drop_missing {groups : List (String × AgendaGroup)} {g : String}
    {rest : List String}
    (hg : g ≠ "main") (hlk : alLookup groups g = none) :
    Agenda.popAux groups (g :: rest) = Agenda.popAux groups rest := by
  unfold Agenda.popAux
  simp only [hlk]
  rw [if_pos (by simpa using hg)]
  cases rest with
  | nil => rfl
  | cons r t => rfl

theorem popAux_cons_main_empty {groups : List (String × AgendaGroup)}
    {rest : List String} {grp : AgendaGroup}
    (hlk : alLookup groups "main" = some grp)
    (hpm : popMax ActivationW.compare grp.activations = none) :
    Agenda.popAux groups ("main" :: rest) = ("main" :: rest, groups, none) := by
  unfold Agenda.popAux
  simp only [hlk, hpm]
  rw [if_neg (by simp)]

theorem popAux_cons_main_missing {groups : List (String × AgendaGroup)}
    {rest : List String}
    (hlk : alLookup groups "main" = none) :
    Agenda.popAux groups ("main" :: rest) = ("main" :: rest, groups, none) := by
  unfold Agenda.popAux
  simp only [hlk]
  rw [if_neg (by simp)]

theorem popAux_all_empty {groups : List (String × AgendaGroup)} (st : List String)
    (h : st.all (fun g =>
      match alLookup groups g with
      | some grp => grp.activations.isEmpty
      | none => true) = true) :
    (Agenda.popAux groups st).2.2 = none := by
  induction st with
  | nil => rfl
  | cons g rest ih =>
    rw [List.all_cons, Bool.and_eq_true] at h
    obtain ⟨hg, hrest⟩ := h
    cases hlk : alLookup groups g with
    | some grp =>
      have hnil : grp.activations = [] := by
        rw [hlk] at hg
        exact List.isEmpty_iff.mp hg
      have hpm : popMax ActivationW.compare grp.activations = none := by
        rw [hnil]; rfl
      by_cases hmain : g = "main"
      · subst hmain
        rw [popAux_cons_main_empty hlk hpm]
      · rw [popAux_cons_drop_empty hmain hlk hpm]
        exact ih hrest
    | none =>
      by_cases hmain : g = "main"
      · subst hmain
        rw [popAux_cons_main_missing hlk]
      · rw [popAux_cons_drop_missing hmain hlk]
        exact ih hrest

/-- **C5.** `pop()` takes the heap-popped (highest-ordered) activation from
the group at the top of the focus stack; an empty (or unregistered) top group
that is not `"main"` is popped off the focus stack and the search continues;
when the walk reaches an empty or missing `"main"`, `pop()` returns none and
leaves the agenda unchanged.  Consequently, whenever `is_empty()` returns
true, `pop()` returns none. -/
theorem c5_agenda_pop_spec :
    (∀ a : Agenda, a.is_empty = true → (a.pop).2 = none) ∧
    (∀ (a : Agenda) (g : String) (rest : List String) (grp : AgendaGroup)
       (w : ActivationW) (l' : List ActivationW),
      a.focus_stack = g :: rest → alLookup a.groups g = some grp →
      popMax ActivationW.compare grp.activations = some (w, l') →
      a.pop = ({ a with groups := alInsert a.groups g { grp with activations := l' } },
               some w.activation)) ∧
    (∀ (a : Agenda) (g : String) (rest : List String) (grp : AgendaGroup),
      a.focus_stack = g :: rest → g ≠ "main" → alLookup a.groups g = some grp →
      popMax ActivationW.compare grp.activations = none →
      a.pop = Agenda.pop { a with focus_stack := rest }) ∧
    (∀ (a : Agenda) (g : String) (rest : List String),
      a.focus_stack = g :: rest → g ≠ "main" → alLookup a.groups g = none →
      a.pop = Agenda.pop { a with focus_stack := rest }) ∧
    (∀ (a : Agenda) (rest : List String) (grp : AgendaGroup),
      a.focus_stack = "main" :: rest → alLookup a.groups "main" = some grp →
      popMax ActivationW.compare grp.activations = none →
      a.pop = (a, none)) ∧
    (∀ (a : Agenda) (rest : List String),
      a.focus_stack = "main" :: rest → alLookup a.groups "main" = none →
      a.pop = (a, none)) := by
  refine ⟨?_, ?_, ?_, ?_, ?_, ?_⟩
  · intro a hempty
    unfold Agenda.pop
    exact popAux_all_empty a.focus_stack hempty
  · intro a g rest grp w l' hstack hlk hpm
    unfold Agenda.pop
    rw [hstack, popAux_cons_found hlk hpm, ← hstack]
  · intro a g rest grp hstack hg hlk hpm
    unfold Agenda.pop
    rw [hstack, popAux_cons_drop_empty hg hlk hpm]
  · intro a g rest hstack hg hlk
    unfold Agenda.pop
    rw [hstack, popAux_cons_drop_missing hg hlk]
  · intro a rest grp hstack hlk hpm
    unfold Agenda.pop
    rw [hstack, popAux_cons_main_empty hlk hpm, ← hstack]
  · intro a rest hstack hlk
    unfold Agenda.pop
    rw [hstack, popAux_cons_main_missing hlk, ← hstack]

/-- The default conflict-resolution tuple `(salience, activation recency)`. -/
def defaultStrategies : List ConflictResolution :=
  [ConflictResolution.salience, ConflictResolution.activationRecency]

/-- A concrete rule, activation, group and agenda exercising `Agenda::pop`. -/
def c5Rule : Rule := ⟨"r0", [], .noop, 0, "main", false⟩

def c5Act : Activation := ⟨c5Rule, Match.new, 0⟩

def c5Grp : AgendaGroup := ⟨"main", [⟨c5Act, defaultStrategies⟩], defaultStrategies⟩

def c5Agenda : Agenda := ((Agenda.new).insert c5Act).1

/-- Witness for C5: a fresh agenda is empty and pops nothing; an agenda with
one queued activation in `"main"` pops exactly that activation. -/
theorem c5_agenda_pop_spec_witness :
    ((Agenda.new).is_empty = true ∧ ((Agenda.new).pop).2 = none) ∧
    c5Agenda.pop = ({ c5Agenda with
      groups := alInsert c5Agenda.groups "main" { c5Grp with activations := [] } },
      some c5Act) :=
  ⟨⟨rfl, c5_agenda_pop_spec.1 Agenda.new rfl⟩,
   c5_agenda_pop_spec.2.1 c5Agenda "main" [] c5Grp ⟨c5Act, defaultStrategies⟩ [] rfl rfl rfl⟩

/-! ## Conflict-resolution ordering under the default strategies (claim C3) -/

/-- The lexicographic (salience, activation recency) comparison realized by
the default strategy tuple. -/
def keyCmp (a b : Activation) : Ordering :=
  match ordCmpI a.salience b.salience with
  | .eq => ordCmpN a.recency b.recency
  | o => o

theorem ordCmpI_lt_iff {x y : Int} : ordCmpI x y = .lt ↔ x < y := by
  unfold ordCmpI
  by_cases h1 : x < y
  · simp [h1]
  · by_cases h2 : x = y
    · simp [h1, h2] <;> omega
    · simp [h1, h2] <;> omega

theorem ordCmpI_eq_iff {x y : Int} : ordCmpI x y = .eq ↔ x = y := by
  unfold ordCmpI
  by_cases h1 : x < y
  · simp [h1] <;> omega
  · by_cases h2 : x = y
    · simp [h1, h2]
    · simp [h1, h2]

theorem ordCmpI_gt_iff {x y : Int} : ordCmpI x y = .gt ↔ y < x := by
  unfold ordCmpI
  by_cases h1 : x < y
  · simp [h1] <;> omega
  · by_cases h2 : x = y
    · simp [h1, h2] <;> omega
    · simp [h1, h2] <;> omega

theorem ordCmpN_lt_iff {x y : Nat} : ordCmpN x y = .lt ↔ x < y := by
  unfold ordCmpN
  by_cases h1 : x < y
  · simp [h1]
  · by_cases h2 : x = y
    · simp [h1, h2] <;> omega
    · simp [h1, h2] <;> omega

theorem ordCmpN_eq_iff {x y : Nat} : ordCmpN x y = .eq ↔ x = y := by
  unfold ordCmpN
  by_cases h1 : x < y
  · simp [h1] <;> omega
  · by_cases h2 : x = y
    · simp [h1, h2]
    · simp [h1, h2]

theorem ordCmpN_gt_iff {x y : Nat} : ordCmpN x y = .gt ↔ y < x := by
  unfold ordCmpN
  by_cases h1 : x < y
  · simp [h1] <;> omega
  · by_cases h2 : x = y
    · simp [h1, h2] <;> omega
    · simp [h1, h2] <;> omega

theorem keyCmp_lt_iff {a b : Activation} :
    keyCmp a b = .lt ↔
      (a.salience < b.salience ∨ (a.salience = b.salience ∧ a.recency < b.recency)) := by
  unfold keyCmp
  cases hI : ordCmpI a.salience b.salience with
  | lt =>
    simp only
    rw [ordCmpI_lt_iff] at hI
    constructor
    · intro _; exact Or.inl hI
    · intro _; trivial
  | eq =>
    simp only
    rw [ordCmpI_eq_iff] at hI
    rw [ordCmpN_lt_iff]
    constructor
    · intro h; exact Or.inr ⟨hI, h⟩
    · rintro (h | ⟨_, h⟩)
      · omega
      · exact h
  | gt =>
    simp only
    rw [ordCmpI_gt_iff] at hI
    constructor
    · intro h; cases h
    · rintro (h | ⟨h, _⟩) <;> omega

theorem keyCmp_gt_iff {a b : Activation} :
    keyCmp a b = .gt ↔
      (b.salience < a.salience ∨ (a.salience = b.salience ∧ b.recency < a.recency)) := by
  unfold keyCmp
  cases hI : ordCmpI a.salience b.salience with
  | lt =>
    simp only
    rw [ordCmpI_lt_iff] at hI
    constructor
    · intro h; cases h
    · rintro (h | ⟨h, _⟩) <;> omega
  | eq =>
    simp only
    rw [ordCmpI_eq_iff] at hI
    rw [ordCmpN_gt_iff]
    constructor
    · intro h; exact Or.inr ⟨hI, h⟩
    · rintro (h | ⟨_, h⟩)
      · omega
      · exact h
  | gt =>
    simp only
    rw [ordCmpI_gt_iff] at hI
    constructor
    · intro _; exact Or.inl hI
    · intro _; trivial

theorem keyCmp_gt_iff_lt {a b : Activation} : keyCmp a b = .gt ↔ keyCmp b a = .lt := by
  rw [keyCmp_gt_iff, keyCmp_lt_iff]
  constructor
  · rintro (h | ⟨h1, h2⟩)
    · exact Or.inl h
    · exact Or.inr ⟨h1.symm, h2⟩
  · rintro (h | ⟨h1, h2⟩)
    · exact Or.inl h
    · exact Or.inr ⟨h1.symm, h2⟩

theorem keyCmp_not_lt_trans {x y z : Activation}
    (h1 : keyCmp x y ≠ .lt) (h2 : keyCmp y z ≠ .lt) : keyCmp x z ≠ .lt := by
  simp only [ne_eq, keyCmp_lt_iff] at h1 h2 ⊢
  push_neg at h1 h2 ⊢
  obtain ⟨h1a, h1b⟩ := h1
  obtain ⟨h2a, h2b⟩ := h2
  constructor
  · omega
  · intro heq
    have hxy : x.salience = y.salience := by omega
    have hyz : y.salience = z.salience := by omega
    have := h1b hxy
    have := h2b hyz
    omega

theorem ActivationW.compare_default {w1 w2 : ActivationW} (h : w1.strategies = defaultStrategies) :
    ActivationW.compare w1 w2 = keyCmp w1.activation w2.activation := by
  unfold ActivationW.compare
  rw [h]
  cases hI : ordCmpI w1.activation.salience w2.activation.salience <;>
    cases hN : ordCmpN w1.activation.recency w2.activation.recency <;>
      simp [defaultStrategies, stratLoop, strategyOrd, keyCmp, hI, hN]

theorem popMax_eq_none {α : Type} {cmp : α → α → Ordering} {l : List α}
    (h : popMax cmp l = none) : l = [] := by
  cases l with
  | nil => rfl
  | cons x xs =>
    exfalso
    unfold popMax at h
    cases hpm : popMax cmp xs with
    | none => rw [hpm] at h; cases h
    | some pr =>
      obtain ⟨y, ys⟩ := pr
      simp only [hpm] at h
      by_cases hc : cmp x y = .lt
      · rw [if_pos hc] at h; cases h
      · rw [if_neg hc] at h; cases h

theorem popMax_perm {α : Type} {cmp : α → α → Ordering} {l : List α} {x : α} {xs : List α}
    (h : popMax cmp l = some (x, xs)) : l.Perm (x :: xs) := by
  induction l generalizing x xs with
  | nil => cases h
  | cons a as ih =>
    unfold popMax at h
    cases hpm : popMax cmp as with
    | none =>
      simp only [hpm] at h
      have has : as = [] := popMax_eq_none hpm
      simp only [Option.some.injEq, Prod.mk.injEq] at h
      obtain ⟨rfl, rfl⟩ := h
      rw [has]
    | some pr =>
      obtain ⟨y, ys⟩ := pr
      simp only [hpm] at h
      by_cases hc : cmp a y = .lt
      · rw [if_pos hc] at h
        simp only [Option.some.injEq, Prod.mk.injEq] at h
        obtain ⟨rfl, rfl⟩ := h
        exact ((ih hpm).cons a).trans (List.Perm.swap y a ys)
      · rw [if_neg hc] at h
        simp only [Option.some.injEq, Prod.mk.injEq] at h
        obtain ⟨rfl, rfl⟩ := h
        exact List.Perm.refl _

/-- All wrappers in a list carry the default strategy tuple (as they do in any
group of an agenda built with `Agenda::new`). -/
def AllDefault (l : List ActivationW) : Prop := ∀ w ∈ l, w.strategies = defaultStrategies

theorem popMax_max {l : List ActivationW} {x : ActivationW} {xs : List ActivationW}
    (hAll : AllDefault l) (h : popMax ActivationW.compare l = some (x, xs)) :
    ∀ y ∈ xs, keyCmp x.activation y.activation ≠ .lt := by
  induction l generalizing x xs with
  | nil => cases h
  | cons a as ih =>
    have hAllas : AllDefault as := fun w hw => hAll w (List.mem_cons_of_mem a hw)
    have ha : a.strategies = defaultStrategies := hAll a (List.mem_cons_self a as)
    unfold popMax at h
    cases hpm : popMax ActivationW.compare as with
    | none =>
      simp only [hpm] at h
      simp only [Option.some.injEq, Prod.mk.injEq] at h
      obtain ⟨rfl, rfl⟩ := h
      intro y hy
      cases hy
    | some pr =>
      obtain ⟨y, ys⟩ := pr
      simp only [hpm] at h
      have hmax := ih hAllas hpm
      by_cases hc : ActivationW.compare a y = .lt
      · rw [if_pos hc] at h
        simp only [Option.some.injEq, Prod.mk.injEq] at h
        obtain ⟨rfl, rfl⟩ := h
        rw [ActivationW.compare_default ha] at hc
        intro z hz
        rcases List.mem_cons.mp hz with rfl | hmem
        · rw [← keyCmp_gt_iff_lt] at hc
          rw [hc]
          simp
        · exact hmax z hmem
      · rw [if_neg hc] at h
        simp only [Option.some.injEq, Prod.mk.injEq] at h
        obtain ⟨rfl, rfl⟩ := h
        rw [ActivationW.compare_default ha] at hc
        intro z hz
        have hz' := (popMax_perm hpm).mem_iff.mp hz
        rcases List.mem_cons.mp hz' with rfl | hmem
        · exact hc
        · exact keyCmp_not_lt_trans hc (hmax z hmem)

/-- Repeatedly `AgendaGroup::pop` (fuel-bounded drain), recording the pop
order. -/
def AgendaGroup.drain : Nat → AgendaGroup → List Activation
  | 0, _ => []
  | fuel + 1, g =>
    match g.pop with
    | (_, none) => []
    | (g', some act) => act :: AgendaGroup.drain fuel g'

theorem AgendaGroup.drain_mem {fuel : Nat} {g : AgendaGroup} {x : Activation}
    (hx : x ∈ AgendaGroup.drain fuel g) : ∃ w ∈ g.activations, w.activation = x := by
  induction fuel generalizing g with
  | zero => cases hx
  | succ fuel ih =>
    unfold AgendaGroup.drain AgendaGroup.pop at hx
    cases hpm : popMax ActivationW.compare g.activations with
    | none =>
      simp only [hpm] at hx
      simp at hx
    | some pr =>
      obtain ⟨w, rest⟩ := pr
      simp only [hpm] at hx
      rcases List.mem_cons.mp hx with rfl | hmem
      · exact ⟨w, (popMax_perm hpm).mem_iff.mpr (List.mem_cons_self _ _), rfl⟩
      · obtain ⟨w', hw', hval⟩ := ih hmem
        exact ⟨w', (popMax_perm hpm).mem_iff.mpr (List.mem_cons_of_mem _ hw'), hval⟩

theorem AgendaGroup.drain_pairwise {fuel : Nat} {g : AgendaGroup}
    (hAll : AllDefault g.activations) :
    List.Pairwise (fun x y => keyCmp x y ≠ .lt) (AgendaGroup.drain fuel g) := by
  induction fuel generalizing g with
  | zero => exact List.Pairwise.nil
  | succ fuel ih =>
    unfold AgendaGroup.drain AgendaGroup.pop
    cases hpm : popMax ActivationW.compare g.activations with
    | none =>
      simp only [hpm]
      exact List.Pairwise.nil
    | some pr =>
      obtain ⟨w, rest⟩ := pr
      simp only [hpm]
      have hAllrest : AllDefault rest := fun w' hw' =>
        hAll w' ((popMax_perm hpm).mem_iff.mpr (List.mem_cons_of_mem _ hw'))
      refine List.Pairwise.cons ?_ (ih hAllrest)
      intro y hy
      obtain ⟨w', hw', hval⟩ := AgendaGroup.drain_mem hy
      rw [← hval]
      exact popMax_max hAll hpm w' hw'

theorem AgendaGroup.drain_perm {fuel : Nat} {g : AgendaGroup}
    (hfuel : g.activations.length ≤ fuel) :
    (AgendaGroup.drain fuel g).Perm (g.activations.map (fun w => w.activation)) := by
  induction fuel generalizing g with
  | zero =>
    have : g.activations = [] := List.length_eq_zero.mp (Nat.le_zero.mp hfuel)
    rw [this]
    exact List.Perm.refl _
  | succ fuel ih =>
    unfold AgendaGroup.drain AgendaGroup.pop
    cases hpm : popMax ActivationW.compare g.activations with
    | none =>
      simp only [hpm]
      rw [popMax_eq_none hpm]
      exact List.Perm.refl _
    | some pr =>
      obtain ⟨w, rest⟩ := pr
      simp only [hpm]
      have hperm := popMax_perm hpm
      have hlen : rest.length ≤ fuel := by
        have := hperm.length_eq
        simp only [List.length_cons] at this
        omega
      have ihr := @ih { g with activations := rest } hlen
      have hmap : (List.map (fun w => w.activation) g.activations).Perm
          (w.activation :: rest.map (fun w => w.activation)) :=
        hperm.map (fun w => w.activation)
      exact (ihr.cons w.activation).trans hmap.symm

theorem foldl_insert_spec (acts : List Activation) (g : AgendaGroup) :
    (List.foldl AgendaGroup.insert g acts).activations =
      g.activations ++ acts.map (fun a => (⟨a, g.strategies⟩ : ActivationW)) ∧
    (List.foldl AgendaGroup.insert g acts).strategies = g.strategies := by
  induction acts generalizing g with
  | nil => simp
  | cons a as ih =>
    have := ih (g.insert a)
    simp only [List.foldl_cons]
    rw [this.1, this.2]
    unfold AgendaGroup.insert
    simp

/-- The group obtained by inserting a list of activations, in order, into a
fresh group configured with the default strategy tuple. -/
def c3Group (acts : List Activation) : AgendaGroup :=
  List.foldl AgendaGroup.insert (AgendaGroup.new "G" defaultStrategies) acts

/-- The order in which `AgendaGroup::pop` returns those activations. -/
def c3Drain (acts : List Activation) : List Activation :=
  AgendaGroup.drain acts.length (c3Group acts)

theorem c3Group_activations (acts : List Activation) :
    (c3Group acts).activations =
      acts.map (fun a => (⟨a, defaultStrategies⟩ : ActivationW)) := by
  unfold c3Group
  rw [(foldl_insert_spec acts (AgendaGroup.new "G" defaultStrategies)).1]
  rfl

/-- **C3.** Under the default strategy tuple (salience, activation recency),
every activation inserted into a group is eventually popped (the drain is a
permutation of the inserted activations), and for any two activations `a`,
`b`: if `salience(a) > salience(b)`, or saliences are equal and `a`'s
activation recency is greater, then `a` is popped strictly before `b`. -/
theorem c3_default_pop_order (acts : List Activation) :
    (c3Drain acts).Perm acts ∧
    (∀ (i j : Nat) (a b : Activation),
      (c3Drain acts).get? i = some a → (c3Drain acts).get? j = some b →
      (b.salience < a.salience ∨ (a.salience = b.salience ∧ b.recency < a.recency)) →
      i < j) := by
  have hacts : (c3Group acts).activations =
      acts.map (fun a => (⟨a, defaultStrategies⟩ : ActivationW)) := c3Group_activations acts
  have hAll : AllDefault (c3Group acts).activations := by
    rw [hacts]
    intro w hw
    rcases List.mem_map.mp hw with ⟨a, _, rfl⟩
    rfl
  have hlen : (c3Group acts).activations.length ≤ acts.length := by
    rw [hacts, List.length_map]
  have hperm : (c3Drain acts).Perm acts := by
    refine (AgendaGroup.drain_perm hlen).trans ?_
    rw [hacts, List.map_map]
    have hcomp : ((fun w : ActivationW => w.activation) ∘
        fun a : Activation => (⟨a, defaultStrategies⟩ : ActivationW)) = fun a : Activation => a := rfl
    rw [hcomp, List.map_id']
  refine ⟨hperm, ?_⟩
  intro i j a b hi hj hcond
  have hpw : List.Pairwise (fun x y => keyCmp x y ≠ .lt) (c3Drain acts) :=
    AgendaGroup.drain_pairwise hAll
  rcases Nat.lt_trichotomy i j with hij | hij | hij
  · exact hij
  · exfalso
    subst hij
    rw [hi] at hj
    injection hj with hj
    subst hj
    rcases hcond with h | ⟨_, h⟩ <;> omega
  · exfalso
    obtain ⟨hjlen, hjget⟩ := List.get?_eq_some.mp hj
    obtain ⟨hilen, higet⟩ := List.get?_eq_some.mp hi
    have := (List.pairwise_iff_get.mp hpw) ⟨j, hjlen⟩ ⟨i, hilen⟩ hij
    rw [hjget, higet] at this
    have hgt : keyCmp a b = .gt := keyCmp_gt_iff.mpr hcond
    rw [keyCmp_gt_iff_lt] at hgt
    exact this hgt

/-- Concrete activations for the C3 witness: salience 10 beats salience 1. -/
def c3ActLow : Activation := ⟨⟨"low", [], .noop, 1, "main", false⟩, Match.new, 0⟩

def c3ActHigh : Activation := ⟨⟨"high", [], .noop, 10, "main", false⟩, Match.new, 1⟩

/-- Witness for C3: with a low-salience activation inserted first and a
high-salience one second, the high one is popped at index 0, before the low
one at index 1. -/
theorem c3_default_pop_order_witness : (0 : Nat) < 1 :=
  (c3_default_pop_order [c3ActLow, c3ActHigh]).2 0 1 c3ActHigh c3ActLow rfl rfl
    (Or.inl (by decide))

/-! ## Rete network nodes (`node.rs`) -/

/-- The closed set of non-root node kinds wired by `flow.rs`: alpha nodes
(pattern, children, matched-fact memory) and terminal nodes (rule, per-node
activation recency counter). -/
inductive Node where
  | alpha (pattern : Pattern) (children : List Node) (memory : List FactHandle)
  | terminal (rule : Rule) (recency : Nat)

mutual
/-- `Node::assert_fact` for `AlphaNode` and `TerminalNode`.  An alpha node
evaluates its pattern against an empty context; on a match it pushes the
handle into its memory (no deduplication in the source) and propagates to its
children.  A terminal node draws the next activation recency and emits one
activation whose single binding is the first pattern's alias. -/
def Node.assert_fact : Node → FactHandle → Except Error (Node × List Activation)
  | .alpha p cs mem, h =>
    match p.matches h ConstraintContext.new with
    | .error e => .error e
    | .ok false => .ok (.alpha p cs mem, [])
    | .ok true =>
      match Node.assertChildren cs h with
      | .error e => .error e
      | .ok (cs', acts) => .ok (.alpha p cs' (mem ++ [h]), acts)
  | .terminal r rec, h =>
    let md := match r.patterns.head? with
      | some p => Match.new.insert p.aliasOf h
      | none => Match.new
    .ok (.terminal r (rec + 1), [⟨r, md, rec⟩])

/-- Sequential fan-out of an assert over a child list, concatenating the
returned activations (the `for child in &mut self.children` loops). -/
def Node.assertChildren : List Node → FactHandle → Except Error (List Node × List Activation)
  | [], _ => .ok ([], [])
  | n :: ns, h =>
    match n.assert_fact h with
    | .error e => .error e
    | .ok (n', a1) =>
      match Node.assertChildren ns h with
      | .error e => .error e
      | .ok (ns', a2) => .ok (n' :: ns', a1 ++ a2)
end

mutual
/-- `Node::retract_fact`: an alpha node retains only memory entries with a
different FactId and propagates regardless; a terminal node emits nothing. -/
def Node.retract_fact : Node → FactHandle → Except Error (Node × List Activation)
  | .alpha p cs mem, h =>
    match Node.retractChildren cs h with
    | .error e => .error e
    | .ok (cs', acts) => .ok (.alpha p cs' (mem.filter (fun f => f.id ≠ h.id)), acts)
  | .terminal r rec, _ => .ok (.terminal r rec, [])

def Node.retractChildren : List Node → FactHandle → Except Error (List Node × List Activation)
  | [], _ => .ok ([], [])
  | n :: ns, h =>
    match n.retract_fact h with
    | .error e => .error e
    | .ok (n', a1) =>
      match Node.retractChildren ns h with
      | .error e => .error e
      | .ok (ns', a2) => .ok (n' :: ns', a1 ++ a2)
end

/-- `node.rs::RootNode`: fans every event out to every child in registration
order. -/
structure RootNode where
  children : List Node

/-- `RootNode::add_child`. -/
def RootNode.add_child (rn : RootNode) (n : Node) : RootNode :=
  ⟨rn.children ++ [n]⟩

/-- `RootNode::assert_fact`. -/
def RootNode.assert_fact (rn : RootNode) (h : FactHandle) :
    Except Error (RootNode × List Activation) :=
  match Node.assertChildren rn.children h with
  | .error e => .error e
  | .ok (cs, acts) => .ok (⟨cs⟩, acts)

/-- `RootNode::retract_fact`. -/
def RootNode.retract_fact (rn : RootNode) (h : FactHandle) :
    Except Error (RootNode × List Activation) :=
  match Node.retractChildren rn.children h with
  | .error e => .error e
  | .ok (cs, acts) => .ok (⟨cs⟩, acts)

/-- The default `Node::modify_fact`: retract then assert, concatenating the
results (inherited by `RootNode`). -/
def RootNode.modify_fact (rn : RootNode) (h : FactHandle) :
    Except Error (RootNode × List Activation) :=
  match rn.retract_fact h with
  | .error e => .error e
  | .ok (rn1, a1) =>
    match rn1.assert_fact h with
    | .error e => .error e
    | .ok (rn2, a2) => .ok (rn2, a1 ++ a2)

/-! ## Rule builder (`rule.rs`) and flow (`flow.rs`) -/

/-- `rule.rs::RuleBuilder`. -/
structure RuleBuilder where
  name : String
  patterns : List Pattern
  action : Option RuleAction
  priority : Int
  agenda_group : String
  auto_focus : Bool

/-- `Rule::new`: a builder with no action, priority 0, group `"main"`, no
auto-focus. -/
def Rule.newBuilder (name : String) : RuleBuilder :=
  ⟨name, [], none, 0, "main", false⟩

/-- `RuleBuilder::build`: `Compilation` error when no action was set. -/
def RuleBuilder.build (b : RuleBuilder) : Except Error Rule :=
  match b.action with
  | none => .error (.compilation "Rule action not defined")
  | some a => .ok ⟨b.name, b.patterns, a, b.priority, b.agenda_group, b.auto_focus⟩

/-- `flow.rs::Flow` (named `RuleFlow` here; `Flow` is taken by Mathlib). -/
structure RuleFlow where
  name : String
  rules : List (String × Rule)
  root : RootNode
  strategies : List ConflictResolution

/-- `Flow::new`. -/
def RuleFlow.new (name : String) : RuleFlow :=
  ⟨name, [], ⟨[]⟩, defaultStrategies⟩

/-- `Flow::build_network_for_rule`: one `alpha → terminal` chain per
pattern, appended to the root's children. -/
def RuleFlow.buildNetworkForRule (root : RootNode) (r : Rule) : RootNode :=
  r.patterns.foldl (fun rt p => rt.add_child (.alpha p [.terminal r 0] [])) root

/-- `Flow::add_rule`: `Compilation` error (and no mutation) when the rule
name already exists; otherwise extend the network and record the rule. -/
def RuleFlow.add_rule (f : RuleFlow) (r : Rule) : RuleFlow × Option Error :=
  if (alLookup f.rules r.name).isSome then
    (f, some (.compilation ("Rule '" ++ r.name ++ "' already exists")))
  else
    ({ f with root := RuleFlow.buildNetworkForRule f.root r,
              rules := alInsert f.rules r.name r }, none)

/-! ## Session (`session.rs`) -/

/-- `session.rs::Session`.  The session owns its compiled network copy (the
`Arc<RwLock<RootNode>>` sharing is irrelevant to a single session). -/
structure Session where
  flow_name : String
  working_memory : WorkingMemory
  agenda : Agenda
  root : RootNode
  halted : Bool

/-- `Session::new`. -/
def Session.new (flow_name : String) (root : RootNode)
    (strategies : List ConflictResolution) : Session :=
  ⟨flow_name, WorkingMemory.new, Agenda.with_strategies strategies, root, false⟩

/-- `Flow::session`. -/
def RuleFlow.session (f : RuleFlow) : Session :=
  Session.new f.name f.root f.strategies

/-- The `for activation in activations { self.agenda.insert(activation)? }`
loop of `Session::assert`/`Session::modify`. -/
def Agenda.insertAll (a : Agenda) : List Activation → Except Error Agenda
  | [] => .ok a
  | act :: rest =>
    match a.insert act with
    | (a', none) => a'.insertAll rest
    | (_, some e) => .error e

/-- `Session::assert`: working memory, then the network, then the agenda. -/
def Session.assertFact (s : Session) (type_id value : Nat) :
    Except Error (Nat × Session) :=
  let r := s.working_memory.assertFact type_id value
  match s.root.assert_fact r.1 with
  | .error e => .error e
  | .ok (root', acts) =>
    match s.agenda.insertAll acts with
    | .error e => .error e
    | .ok ag' =>
      .ok (r.1.id, { s with working_memory := r.2, root := root', agenda := ag' })

/-- `Session::retract`: working memory then the network; activations returned
by the network are discarded. -/
def Session.retractFact (s : Session) (fact_id : Nat) : Except Error Session :=
  match s.working_memory.retract fact_id with
  | .error e => .error e
  | .ok (h, wm') =>
    match s.root.retract_fact h with
    | .error e => .error e
    | .ok (root', _) => .ok { s with working_memory := wm', root := root' }

/-- `Session::modify`: working-memory modify, network modify, then insert the
returned activations. -/
def Session.modifyFact (s : Session) (fact_id : Nat) : Except Error Session :=
  match s.working_memory.modify fact_id with
  | .error e => .error e
  | .ok (h, wm') =>
    match s.root.modify_fact h with
    | .error e => .error e
    | .ok (root', acts) =>
      match s.agenda.insertAll acts with
      | .error e => .error e
      | .ok ag' => .ok { s with working_memory := wm', root := root', agenda := ag' }

/-- `Session::fact_count`. -/
def Session.fact_count (s : Session) : Nat := s.working_memory.len

/-- `Session::focus`: delegates to `Agenda::set_focus`. -/
def Session.focus (s : Session) (group : String) : Session × Option Error :=
  let r := s.agenda.set_focus group
  ({ s with agenda := r.1 }, r.2)

/-- Execution of a rule action (`Rule::fire` calls the action closure with
the mutable session and the match).  Each command invokes the corresponding
session method and propagates its error, as an action body written with `?`
does.  The error branches return the pre-call session: in the source an error
can only arise before any mutation — `retract`/`modify` fail at the initial
working-memory lookup, `set_focus` fails before pushing, and pattern matching
over the closed constraint set never errors (`Pattern.matches_isOk`). -/
def RuleAction.exec : RuleAction → Session → Match → Session × Option Error
  | .noop, s, _ => (s, none)
  | .halt, s, _ => ({ s with halted := true }, none)
  | .fail msg, s, _ => (s, some (.custom msg))
  | .focus g, s, _ => s.focus g
  | .assertF tid v, s, _ =>
    match s.assertFact tid v with
    | .ok (_, s') => (s', none)
    | .error e => (s, some e)
  | .retractF id, s, _ =>
    match s.retractFact id with
    | .ok s' => (s', none)
    | .error e => (s, some e)
  | .modifyF id, s, _ =>
    match s.modifyFact id with
    | .ok s' => (s', none)
    | .error e => (s, some e)

/-- `Rule::fire`. -/
def Rule.fire (r : Rule) (s : Session) (m : Match) : Session × Option Error :=
  r.action.exec s m

/-- `Session::match_rules`, fuel-bounded: while the agenda is non-empty and
the session not halted, pop; if an activation came back, fire it (propagating
its error) and count it.  `none` means the fuel ran out before the loop
exited. -/
def Session.matchRulesFuel : Nat → Nat → Session → Option (Session × Except Error Nat)
  | 0, _, _ => none
  | fuel + 1, acc, s =>
    if s.agenda.is_empty = false ∧ s.halted = false then
      match s.agenda.pop with
      | (ag', some act) =>
        match act.rule.fire { s with agenda := ag' } act.match_data with
        | (s2, some e) => some (s2, .error e)
        | (s2, none) => Session.matchRulesFuel fuel (acc + 1) s2
      | (ag', none) => Session.matchRulesFuel fuel acc { s with agenda := ag' }
    else some (s, .ok acc)

/-- `Session::match_until_halt`, fuel-bounded: while not halted, pop; break
(returning the count) as soon as pop yields nothing. -/
def Session.matchUntilHaltFuel : Nat → Nat → Session → Option (Session × Except Error Nat)
  | 0, _, _ => none
  | fuel + 1, acc, s =>
    if s.halted = true then some (s, .ok acc)
    else
      match s.agenda.pop with
      | (ag', some act) =>
        match act.rule.fire { s with agenda := ag' } act.match_data with
        | (s2, some e) => some (s2, .error e)
        | (s2, none) => Session.matchUntilHaltFuel fuel (acc + 1) s2
      | (ag', none) => some ({ s with agenda := ag' }, .ok acc)

/-- **C7.** `RuleBuilder::build()` returns a `Compilation` error whenever no
action was set; and `add_rule` of a rule whose name already exists in the
flow returns a `Compilation` error and leaves the flow (rule map and network)
unchanged. -/
theorem c7_build_and_duplicate_rule :
    (∀ b : RuleBuilder, b.action = none →
      b.build = .error (.compilation "Rule action not defined")) ∧
    (∀ (f : RuleFlow) (r : Rule), (alLookup f.rules r.name).isSome = true →
      f.add_rule r =
        (f, some (.compilation ("Rule '" ++ r.name ++ "' already exists")))) := by
  constructor
  · intro b hb
    unfold RuleBuilder.build
    rw [hb]
  · intro f r hdup
    unfold RuleFlow.add_rule
    rw [if_pos hdup]

/-- A concrete rule and flow for the C7 witness. -/
def c7Rule : Rule := ⟨"dup", [], .noop, 0, "main", false⟩

def c7Flow : RuleFlow := ((RuleFlow.new "f").add_rule c7Rule).1

/-- Witness for C7: a builder without an action fails to build, and adding a
rule named `"dup"` twice fails with `Compilation`, flow unchanged. -/
theorem c7_build_and_duplicate_rule_witness :
    (Rule.newBuilder "x").build = .error (.compilation "Rule action not defined") ∧
    c7Flow.add_rule c7Rule =
      (c7Flow, some (.compilation ("Rule '" ++ "dup" ++ "' already exists"))) :=
  ⟨c7_build_and_duplicate_rule.1 (Rule.newBuilder "x") rfl,
   c7_build_and_duplicate_rule.2 c7Flow c7Rule rfl⟩

/-! ## Alpha-node assert behaviour (claim C4) -/

/-- The memory list of a node (an alpha node's matched-handle store). -/
def Node.memOf : Node → List FactHandle
  | .alpha _ _ mem => mem
  | .terminal _ _ => []

/-- **C4 (amended).** For every alpha node and every handle: if the node's
pattern does not match the handle, `assert_fact` leaves the node unchanged
and propagates nothing; a pattern error propagates; if it matches, the handle
is appended to memory *without deduplication* — asserting a handle with the
same FactId twice leaves two memory entries for that FactId — and the assert
is propagated to each child. -/
theorem c4_alpha_assert (p : Pattern) (cs : List Node) (mem : List FactHandle)
    (h : FactHandle) :
    (p.matches h ConstraintContext.new = .ok false →
      Node.assert_fact (.alpha p cs mem) h = .ok (.alpha p cs mem, [])) ∧
    (∀ e, p.matches h ConstraintContext.new = .error e →
      Node.assert_fact (.alpha p cs mem) h = .error e) ∧
    (p.matches h ConstraintContext.new = .ok true →
      ∀ cs' acts, Node.assertChildren cs h = .ok (cs', acts) →
        Node.assert_fact (.alpha p cs mem) h = .ok (.alpha p cs' (mem ++ [h]), acts)) ∧
    (p.matches h ConstraintContext.new = .ok true →
      ∀ n1 a1 n2 a2, Node.assert_fact (.alpha p cs mem) h = .ok (n1, a1) →
        Node.assert_fact n1 h = .ok (n2, a2) →
        2 ≤ ((Node.memOf n2).filter (fun f => f.id = h.id)).length) := by
  refine ⟨?_, ?_, ?_, ?_⟩
  · intro hm
    unfold Node.assert_fact
    rw [hm]
  · intro e hm
    unfold Node.assert_fact
    rw [hm]
  · intro hm cs' acts hch
    unfold Node.assert_fact
    rw [hm, hch]
  · intro hm n1 a1 n2 a2 h1 h2
    unfold Node.assert_fact at h1
    rw [hm] at h1
    cases hch : Node.assertChildren cs h with
    | error e => rw [hch] at h1; cases h1
    | ok pr =>
      obtain ⟨cs', acts⟩ := pr
      rw [hch] at h1
      simp only [Except.ok.injEq, Prod.mk.injEq] at h1
      obtain ⟨rfl, rfl⟩ := h1
      unfold Node.assert_fact at h2
      rw [hm] at h2
      cases hch2 : Node.assertChildren cs' h with
      | error e => rw [hch2] at h2; cases h2
      | ok pr2 =>
        obtain ⟨cs'', acts2⟩ := pr2
        rw [hch2] at h2
        simp only [Except.ok.injEq, Prod.mk.injEq] at h2
        obtain ⟨rfl, rfl⟩ := h2
        unfold Node.memOf
        simp [List.filter_append]

def c4Pat : Pattern := Pattern.object 1 "m" []

def c4H : FactHandle := ⟨5, 1, 7, 0⟩

/-- Witness for C4: a type-mismatched handle is ignored; a matching handle is
appended and nothing is propagated from an alpha node with no children. -/
theorem c4_alpha_assert_witness :
    Node.assert_fact (.alpha c4Pat [] []) ⟨6, 2, 7, 0⟩ =
      .ok (.alpha c4Pat [] [], []) ∧
    Node.assert_fact (.alpha c4Pat [] []) c4H =
      .ok (.alpha c4Pat [] ([] ++ [c4H]), []) :=
  ⟨(c4_alpha_assert c4Pat [] [] ⟨6, 2, 7, 0⟩).1 rfl,
   (c4_alpha_assert c4Pat [] [] c4H).2.2.1 rfl [] [] rfl⟩

/-- C4 counterexample: asserting the same handle (same FactId) twice leaves
*two* memory entries for that FactId — the source does not deduplicate. -/
theorem c4_dedup_counterexample :
    Node.assert_fact (.alpha c4Pat [] []) c4H = .ok (.alpha c4Pat [] [c4H], []) ∧
    Node.assert_fact (.alpha c4Pat [] [c4H]) c4H =
      .ok (.alpha c4Pat [] [c4H, c4H], []) ∧
    ¬ ((Node.memOf (.alpha c4Pat [] [c4H, c4H])).filter
        (fun f => f.id = c4H.id)).length ≤ 1 :=
  ⟨rfl, rfl, by decide⟩

/-! ## Assert, retract, then match (claim C1) -/

/-- A rule with a single pattern, an effect-free action, and the default
`"main"` agenda group. -/
def c1Rule (p : Pattern) (rname : String) (prio : Int) : Rule :=
  ⟨rname, [p], .noop, prio, "main", false⟩

/-- A flow holding exactly that rule. -/
def c1Flow (p : Pattern) (rname fname : String) (prio : Int) : RuleFlow :=
  ((RuleFlow.new fname).add_rule (c1Rule p rname prio)).1

/-- The activation emitted by the terminal for the first asserted fact. -/
def c1Act (p : Pattern) (rname : String) (prio : Int) (tid v : Nat) : Activation :=
  ⟨c1Rule p rname prio, Match.new.insert p.aliasOf ⟨1, tid, v, 0⟩, 0⟩

/-- Session state after the assert. -/
def c1S1 (p : Pattern) (tid v : Nat) (rname fname : String) (prio : Int) : Session :=
  ⟨fname, ⟨[(1, ⟨1, tid, v, 0⟩)], [(tid, [⟨1, tid, v, 0⟩])], 1, 2⟩,
   ⟨[("main", ⟨"main", [⟨c1Act p rname prio tid v, defaultStrategies⟩],
       defaultStrategies⟩)], ["main"], defaultStrategies, []⟩,
   ⟨[.alpha p [.terminal (c1Rule p rname prio) 1] [⟨1, tid, v, 0⟩]]⟩, false⟩

/-- Session state after the retract: working memory emptied, the alpha memory
cleared, but the activation still queued in `"main"`. -/
def c1S2 (p : Pattern) (tid v : Nat) (rname fname : String) (prio : Int) : Session :=
  ⟨fname, ⟨[], [(tid, [])], 1, 2⟩,
   ⟨[("main", ⟨"main", [⟨c1Act p rname prio tid v, defaultStrategies⟩],
       defaultStrategies⟩)], ["main"], defaultStrategies, []⟩,
   ⟨[.alpha p [.terminal (c1Rule p rname prio) 1] []]⟩, false⟩

/-- Final session state: the queued activation has fired. -/
def c1SF (p : Pattern) (tid v : Nat) (rname fname : String) (prio : Int) : Session :=
  ⟨fname, ⟨[], [(tid, [])], 1, 2⟩,
   ⟨[("main", ⟨"main", [], defaultStrategies⟩)], ["main"], defaultStrategies, []⟩,
   ⟨[.alpha p [.terminal (c1Rule p rname prio) 1] []]⟩, false⟩

/-- **C1 (amended).** For a session of a flow containing one rule whose
single pattern matches the asserted fact value: after asserting that fact and
retracting it by its FactId, `match_rules()` returns **1** — the activation
inserted at assert time survives the retract, because retraction does not
invalidate queued agenda entries — and `fact_count()` equals 0. -/
theorem c1_assert_retract_match (p : Pattern) (tid v : Nat) (rname fname : String)
    (prio : Int)
    (hmatch : p.matches ⟨1, tid, v, 0⟩ ConstraintContext.new = .ok true) :
    ((c1Flow p rname fname prio).session).assertFact tid v =
      .ok (1, c1S1 p tid v rname fname prio) ∧
    (c1S1 p tid v rname fname prio).retractFact 1 = .ok (c1S2 p tid v rname fname prio) ∧
    Session.matchRulesFuel 2 0 (c1S2 p tid v rname fname prio) =
      some (c1SF p tid v rname fname prio, .ok 1) ∧
    (c1SF p tid v rname fname prio).fact_count = 0 := by
  refine ⟨?_, ?_, ?_, rfl⟩
  · have hroot : RootNode.assert_fact
        ⟨[.alpha p [.terminal (c1Rule p rname prio) 0] []]⟩ ⟨1, tid, v, 0⟩ =
        .ok (⟨[.alpha p [.terminal (c1Rule p rname prio) 1] [⟨1, tid, v, 0⟩]]⟩,
             [c1Act p rname prio tid v]) := by
      unfold RootNode.assert_fact
      unfold Node.assertChildren
      unfold Node.assert_fact
      simp only [hmatch]
      rfl
    have hs : (c1Flow p rname fname prio).session =
        ⟨fname, ⟨[], [], 0, 1⟩,
         ⟨[("main", ⟨"main", [], defaultStrategies⟩)], ["main"], defaultStrategies, []⟩,
         ⟨[.alpha p [.terminal (c1Rule p rname prio) 0] []]⟩, false⟩ := rfl
    rw [hs]
    unfold Session.assertFact
    dsimp only [WorkingMemory.assertFact]
    simp only [hroot]
    rfl
  · unfold Session.retractFact WorkingMemory.retract c1S1 c1S2
    simp only [alLookup, alErase, tiRetain]
    simp [RootNode.retract_fact, Node.retractChildren, Node.retract_fact]
  · rfl

/-- The end-to-end observable of Scenario C: assert a fact matching the one
rule, retract it, run `match_rules` — returning (fired count, fact count). -/
def c1Pipeline : Option (Nat × Nat) :=
  match ((c1Flow (Pattern.object 1 "m" []) "r" "f" 0).session).assertFact 1 0 with
  | .ok (fid, s1) =>
    match s1.retractFact fid with
    | .ok s2 =>
      match Session.matchRulesFuel 2 0 s2 with
      | some (sF, .ok n) => some (n, sF.fact_count)
      | _ => none
    | .error _ => none
  | .error _ => none

/-- C1 counterexample: the pipeline fires **1** rule, not 0 — the activation
queued by the assert survives the retract — while `fact_count()` is 0. -/
theorem c1_counterexample : c1Pipeline = some (1, 0) ∧ c1Pipeline ≠ some (0, 0) :=
  ⟨rfl, by decide⟩

/-- Witness for C1 at a concrete pattern, fact, and flow. -/
theorem c1_assert_retract_match_witness :
    ((c1Flow (Pattern.object 1 "m" []) "r" "f" 0).session).assertFact 1 0 =
      .ok (1, c1S1 (Pattern.object 1 "m" []) 1 0 "r" "f" 0) ∧
    (c1S1 (Pattern.object 1 "m" []) 1 0 "r" "f" 0).retractFact 1 =
      .ok (c1S2 (Pattern.object 1 "m" []) 1 0 "r" "f" 0) ∧
    Session.matchRulesFuel 2 0 (c1S2 (Pattern.object 1 "m" []) 1 0 "r" "f" 0) =
      some (c1SF (Pattern.object 1 "m" []) 1 0 "r" "f" 0, .ok 1) ∧
    (c1SF (Pattern.object 1 "m" []) 1 0 "r" "f" 0).fact_count = 0 :=
  c1_assert_retract_match (Pattern.object 1 "m" []) 1 0 "r" "f" 0 rfl

/-! ## `match_rules` vs `match_until_halt` (claim C9) -/

/-- The body of `Agenda::is_empty` as a function of groups and stack. -/
def stackEmptyB (groups : List (String × AgendaGroup)) (st : List String) : Bool :=
  st.all (fun g =>
    match alLookup groups g with
    | some grp => grp.activations.isEmpty
    | none => true)

theorem Agenda.is_empty_eq (a : Agenda) :
    a.is_empty = stackEmptyB a.groups a.focus_stack := rfl

/-- Discard empty-or-missing non-`"main"` groups from the top of the focus
stack (the prefix that `Agenda::pop` walks over without producing an
activation). -/
def normStack (groups : List (String × AgendaGroup)) : List String → List String
  | [] => []
  | g :: rest =>
    if g = "main" then g :: rest
    else
      match alLookup groups g with
      | some grp => if grp.activations.isEmpty then normStack groups rest else g :: rest
      | none => normStack groups rest

/-- A session up to normalization of its focus stack. -/
def normSession (s : Session) : Session :=
  { s with agenda :=
      { s.agenda with focus_stack := normStack s.agenda.groups s.agenda.focus_stack } }

theorem normStack_cons_main (groups : List (String × AgendaGroup)) (rest : List String) :
    normStack groups ("main" :: rest) = "main" :: rest := by
  unfold normStack
  rw [if_pos rfl]

theorem normStack_cons_drop_empty {groups : List (String × AgendaGroup)} {g : String}
    {rest : List String} {grp : AgendaGroup}
    (hg : g ≠ "main") (hlk : alLookup groups g = some grp)
    (hemp : grp.activations.isEmpty = true) :
    normStack groups (g :: rest) = normStack groups rest := by
  unfold normStack
  rw [if_neg hg]
  simp only [hlk]
  rw [if_pos hemp]
  cases rest with
  | nil => rfl
  | cons r t => rfl

theorem normStack_cons_drop_missing {groups : List (String × AgendaGroup)} {g : String}
    {rest : List String}
    (hg : g ≠ "main") (hlk : alLookup groups g = none) :
    normStack groups (g :: rest) = normStack groups rest := by
  unfold normStack
  rw [if_neg hg]
  simp only [hlk]
  cases rest with
  | nil => rfl
  | cons r t => rfl

theorem normStack_cons_keep {groups : List (String × AgendaGroup)} {g : String}
    {rest : List String} {grp : AgendaGroup}
    (hg : g ≠ "main") (hlk : alLookup groups g = some grp)
    (hemp : grp.activations.isEmpty = false) :
    normStack groups (g :: rest) = g :: rest := by
  unfold normStack
  rw [if_neg hg]
  simp only [hlk]
  rw [if_neg (by simp [hemp])]

/-- Normalization is idempotent: once the exhausted top prefix is dropped,
nothing more is dropped. -/
theorem normStack_idem (groups : List (String × AgendaGroup)) (st : List String) :
    normStack groups (normStack groups st) = normStack groups st := by
  induction st with
  | nil => rfl
  | cons g rest ih =>
    by_cases hg : g = "main"
    · subst hg
      rw [normStack_cons_main, normStack_cons_main]
    · cases hlk : alLookup groups g with
      | some grp =>
        cases hemp : grp.activations.isEmpty with
        | true =>
          rw [normStack_cons_drop_empty hg hlk hemp]
          exact ih
        | false =>
          rw [normStack_cons_keep hg hlk hemp, normStack_cons_keep hg hlk hemp]
      | none =>
        rw [normStack_cons_drop_missing hg hlk]
        exact ih

/-- When every focused group is exhausted, the `pop` walk just discards the
droppable top prefix of the focus stack, leaves the groups alone and yields
no activation. -/
theorem popAux_all_empty_norm (groups : List (String × AgendaGroup)) :
    ∀ st : List String, stackEmptyB groups st = true →
      Agenda.popAux groups st = (normStack groups st, groups, none) := by
  intro st
  induction st with
  | nil => intro _; rfl
  | cons g rest ih =>
    intro hemp
    rw [stackEmptyB, List.all_cons, Bool.and_eq_true] at hemp
    obtain ⟨hg, hrest⟩ := hemp
    have hrest2 : stackEmptyB groups rest = true := by rw [stackEmptyB]; exact hrest
    cases hlk : alLookup groups g with
    | some grp =>
      have hnil : grp.activations = [] := by
        rw [hlk] at hg
        exact List.isEmpty_iff.mp hg
      have hge : grp.activations.isEmpty = true := by rw [hnil]; rfl
      have hpm : popMax ActivationW.compare grp.activations = none := by
        rw [hnil]; rfl
      by_cases hmain : g = "main"
      · subst hmain
        rw [popAux_cons_main_empty hlk hpm, normStack_cons_main]
      · rw [popAux_cons_drop_empty hmain hlk hpm,
            normStack_cons_drop_empty hmain hlk hge]
        exact ih hrest2
    | none =>
      by_cases hmain : g = "main"
      · subst hmain
        rw [popAux_cons_main_missing hlk, normStack_cons_main]
      · rw [popAux_cons_drop_missing hmain hlk, normStack_cons_drop_missing hmain hlk]
        exact ih hrest2

/-- A `pop` walk that yields no activation leaves the agenda at a fixpoint:
the groups are unchanged and popping again returns the same stack and again
no activation. -/
theorem popAux_none_fix (groups : List (String × AgendaGroup)) :
    ∀ (st st2 : List String) (gs2 : List (String × AgendaGroup)),
      Agenda.popAux groups st = (st2, gs2, none) →
      gs2 = groups ∧ Agenda.popAux groups st2 = (st2, groups, none) := by
  intro st
  induction st with
  | nil =>
    intro st2 gs2 h
    rw [show Agenda.popAux groups [] = ([], groups, none) from rfl] at h
    injection h with h1 h2
    injection h2 with h2a h2b
    subst h1
    subst h2a
    exact ⟨rfl, rfl⟩
  | cons g rest ih =>
    intro st2 gs2 h
    cases hlk : alLookup groups g with
    | some grp =>
      cases hpm : popMax ActivationW.compare grp.activations with
      | some pr =>
        obtain ⟨w, l2⟩ := pr
        rw [popAux_cons_found hlk hpm] at h
        injection h with h1 h2
        injection h2 with h2a h2b
        exact Option.noConfusion h2b
      | none =>
        by_cases hmain : g = "main"
        · subst hmain
          rw [popAux_cons_main_empty hlk hpm] at h
          injection h with h1 h2
          injection h2 with h2a h2b
          subst h1
          subst h2a
          exact ⟨rfl, popAux_cons_main_empty hlk hpm⟩
        · rw [popAux_cons_drop_empty hmain hlk hpm] at h
          exact ih st2 gs2 h
    | none =>
      by_cases hmain : g = "main"
      · subst hmain
        rw [popAux_cons_main_missing hlk] at h
        injection h with h1 h2
        injection h2 with h2a h2b
        subst h1
        subst h2a
        exact ⟨rfl, popAux_cons_main_missing hlk⟩
      · rw [popAux_cons_drop_missing hmain hlk] at h
        exact ih st2 gs2 h

/-- A stuck state of `match_rules`: not halted, `is_empty` false, yet `pop`
returns no activation and changes nothing (an exhausted `"main"` sits above
a non-empty group).  `match_rules` then spins and exhausts any fuel. -/
theorem matchRules_none_of_stuck (t : Session)
    (hb : t.halted = false) (hie : t.agenda.is_empty = false)
    (hfix : Agenda.popAux t.agenda.groups t.agenda.focus_stack =
      (t.agenda.focus_stack, t.agenda.groups, none)) :
    ∀ fuel acc : Nat, Session.matchRulesFuel fuel acc t = none := by
  have hpop : t.agenda.pop = (t.agenda, none) := by
    unfold Agenda.pop
    rw [hfix]
  intro fuel
  induction fuel with
  | zero => intro acc; rfl
  | succ fuel ih =>
    intro acc
    unfold Session.matchRulesFuel
    rw [if_pos ⟨hie, hb⟩]
    simp only [hpop]
    exact ih acc

/-- **C9 (amended).** Whenever `match_rules()` terminates (within a fuel
bound), `match_until_halt()` terminates within the same bound, returns the
same fired-rule count and the same error, and leaves the session in the same
final state up to discarding exhausted non-`"main"` entries from the top of
the focus stack (the focus-stack-normalized final sessions are equal).  The
converse fails: when a fired action pushes `"main"` above a non-empty
group, `match_rules()` spins forever — `pop` returns nothing while
`is_empty` stays false — while `match_until_halt()` still returns (see the
counterexample). -/
theorem c9_match_rules_refines_until_halt (fuel : Nat) :
    ∀ (acc : Nat) (s : Session) (r : Session × Except Error Nat),
      Session.matchRulesFuel fuel acc s = some r →
      ∃ r2, Session.matchUntilHaltFuel fuel acc s = some r2 ∧
        r2.2 = r.2 ∧ normSession r2.1 = normSession r.1 := by
  induction fuel with
  | zero =>
    intro acc s r hmr
    simp only [Session.matchRulesFuel] at hmr
    exact Option.noConfusion hmr
  | succ fuel ih =>
    intro acc s r hmr
    cases hb : s.halted with
    | true =>
      unfold Session.matchRulesFuel at hmr
      rw [if_neg (by simp [hb])] at hmr
      injection hmr with h1
      subst h1
      unfold Session.matchUntilHaltFuel
      rw [if_pos hb]
      exact ⟨_, rfl, rfl, rfl⟩
    | false =>
      cases hemp : s.agenda.is_empty with
      | true =>
        have hemp2 : stackEmptyB s.agenda.groups s.agenda.focus_stack = true := by
          rw [← Agenda.is_empty_eq]
          exact hemp
        have hpa := popAux_all_empty_norm s.agenda.groups s.agenda.focus_stack hemp2
        have hpop : s.agenda.pop =
            ({ s.agenda with
                focus_stack := normStack s.agenda.groups s.agenda.focus_stack }, none) := by
          unfold Agenda.pop
          rw [hpa]
        unfold Session.matchRulesFuel at hmr
        rw [if_neg (by simp [hemp])] at hmr
        injection hmr with h1
        subst h1
        unfold Session.matchUntilHaltFuel
        rw [if_neg (by simp [hb])]
        simp only [hpop]
        refine ⟨_, rfl, rfl, ?_⟩
        unfold normSession
        dsimp only
        rw [normStack_idem]
      | false =>
        rcases hpa : Agenda.popAux s.agenda.groups s.agenda.focus_stack with ⟨st2, gs2, oact⟩
        cases oact with
        | some act =>
          have hpop : s.agenda.pop =
              ({ s.agenda with focus_stack := st2, groups := gs2 }, some act) := by
            unfold Agenda.pop
            rw [hpa]
          unfold Session.matchRulesFuel at hmr
          rw [if_pos ⟨hemp, hb⟩] at hmr
          simp only [hpop] at hmr
          unfold Session.matchUntilHaltFuel
          rw [if_neg (by simp [hb])]
          simp only [hpop]
          cases hfire : act.rule.fire
              { s with agenda := { s.agenda with focus_stack := st2, groups := gs2 } }
              act.match_data with
          | mk s2 oe =>
            simp only [hfire] at hmr
            cases oe with
            | some e =>
              injection hmr with h1
              subst h1
              exact ⟨_, rfl, rfl, rfl⟩
            | none =>
              exact ih (acc + 1) s2 r hmr
        | none =>
          obtain ⟨hgs, hfix⟩ :=
            popAux_none_fix s.agenda.groups s.agenda.focus_stack st2 gs2 hpa
          subst hgs
          have hpop : s.agenda.pop =
              ({ s.agenda with focus_stack := st2, groups := s.agenda.groups }, none) := by
            unfold Agenda.pop
            rw [hpa]
          unfold Session.matchRulesFuel at hmr
          rw [if_pos ⟨hemp, hb⟩] at hmr
          simp only [hpop] at hmr
          unfold Session.matchUntilHaltFuel
          rw [if_neg (by simp [hb])]
          simp only [hpop]
          cases hie : Agenda.is_empty
              { s.agenda with focus_stack := st2, groups := s.agenda.groups } with
          | false =>
            have hstuck := matchRules_none_of_stuck
              { s with agenda :=
                  { s.agenda with focus_stack := st2, groups := s.agenda.groups } }
              hb hie hfix fuel acc
            exact Option.noConfusion (hstuck.symm.trans hmr)
          | true =>
            cases fuel with
            | zero =>
              simp only [Session.matchRulesFuel] at hmr
              exact Option.noConfusion hmr
            | succ fuel2 =>
              unfold Session.matchRulesFuel at hmr
              rw [if_neg (by simp [hie])] at hmr
              injection hmr with h1
              subst h1
              exact ⟨_, rfl, rfl, rfl⟩

/-- A session whose focus stack holds an empty non-`"main"` group above
`"main"`: the loops agree on count and error but leave different focus
stacks. -/
def c9Sess : Session :=
  ⟨"f", WorkingMemory.new,
   ⟨[("main", AgendaGroup.new "main" defaultStrategies),
     ("g", AgendaGroup.new "g" defaultStrategies)],
    ["g", "main"], defaultStrategies, []⟩,
   ⟨[]⟩, false⟩

/-- A rule in group `"g"` (salience 5) whose action refocuses `"main"`. -/
def c9FocusRule : Rule := ⟨"rf", [], .focus "main", 5, "g", false⟩

/-- A rule in group `"g"` with default salience and a no-op action. -/
def c9NoopRule : Rule := ⟨"rn", [], .noop, 0, "g", false⟩

/-- A session about to fire `c9FocusRule`: group `"g"` holds the focus-rule
activation (salience 5) above the no-op activation, and firing the former
pushes `"main"` above the still non-empty `"g"`.  From then on `pop` returns
nothing while `is_empty` stays false: `match_rules` spins, while
`match_until_halt` breaks on the empty `pop` and returns. -/
def c9LiveSess : Session :=
  ⟨"f", WorkingMemory.new,
   ⟨[("main", AgendaGroup.new "main" defaultStrategies),
     ("g", ⟨"g", [⟨⟨c9FocusRule, Match.new, 0⟩, defaultStrategies⟩,
                  ⟨⟨c9NoopRule, Match.new, 1⟩, defaultStrategies⟩],
            defaultStrategies⟩)],
    ["g", "main"], defaultStrategies, []⟩,
   ⟨[]⟩, false⟩

/-- C9 counterexample.  First, the loops are not state-equivalent even when
both terminate: from `c9Sess` both return `Ok(0)`, but `match_rules` leaves
the focus stack `["g", "main"]` (it exits on `is_empty` without popping)
while `match_until_halt` leaves `["main"]` (its final `pop` discards the
exhausted `"g"` entry).  Second, termination itself diverges: from
`c9LiveSess` the fired action pushes `"main"` above the non-empty `"g"`,
after which `match_rules` exhausts any fuel (12 shown) while
`match_until_halt` returns `Ok(1)`. -/
theorem c9_counterexample :
    (Session.matchRulesFuel 1 0 c9Sess).map (fun r => r.1.agenda.focus_stack) =
      some ["g", "main"] ∧
    (Session.matchUntilHaltFuel 1 0 c9Sess).map (fun r => r.1.agenda.focus_stack) =
      some ["main"] ∧
    (Session.matchRulesFuel 1 0 c9Sess).map (fun r => r.2) = some (.ok 0) ∧
    (Session.matchUntilHaltFuel 1 0 c9Sess).map (fun r => r.2) = some (.ok 0) ∧
    Session.matchRulesFuel 12 0 c9LiveSess = none ∧
    (Session.matchUntilHaltFuel 12 0 c9LiveSess).map (fun r => r.2) = some (.ok 1) :=
  ⟨rfl, rfl, rfl, rfl, rfl, rfl⟩

/-- Witness for C9 at a concrete session: `match_rules` terminates on
`c9Sess` with result `(c9Sess, Ok 0)`, so `match_until_halt` returns the
same count and error and the normalized final sessions agree. -/
theorem c9_match_rules_refines_until_halt_witness :
    ∃ r2, Session.matchUntilHaltFuel 1 0 c9Sess = some r2 ∧
      r2.2 = Except.ok 0 ∧ normSession r2.1 = normSession c9Sess :=
  c9_match_rules_refines_until_halt 1 0 c9Sess (c9Sess, .ok 0) rfl

/-- Witness for C8: with a true child before a false child, AND evaluates to
false regardless of what follows, and OR dually evaluates to true. -/
theorem c8_and_or_evaluate_witness :
    (Constraint.cand [Constraint.func (fun _ _ => true) "t",
       Constraint.func (fun _ _ => false) "f"]).evaluate
      ⟨1, 1, 1, 0⟩ ConstraintContext.new = .ok false ∧
    (Constraint.cor [Constraint.func (fun _ _ => false) "f",
       Constraint.func (fun _ _ => true) "t"]).evaluate
      ⟨1, 1, 1, 0⟩ ConstraintContext.new = .ok true :=
  ⟨(c8_and_or_evaluate ⟨1, 1, 1, 0⟩ ConstraintContext.new).2.2.1
      [Constraint.func (fun _ _ => true) "t"] (Constraint.func (fun _ _ => false) "f") []
      (fun c' hc' => by rcases List.mem_singleton.mp hc' with rfl; rfl) rfl,
   (c8_and_or_evaluate ⟨1, 1, 1, 0⟩ ConstraintContext.new).2.2.2.2.2
      [Constraint.func (fun _ _ => false) "f"] (Constraint.func (fun _ _ => true) "t") []
      (fun c' hc' => by rcases List.mem_singleton.mp hc' with rfl; rfl) rfl⟩
